import Mathlib

/-!
Verification of the compozor process-composition engine.

This file is a shallow embedding, in Lean 4, of the core of the repository:
the process execution engine (`src/processor.js`: `compose`, `start`,
`register`, `deregister`, `validatePipeline`, `validatePrerequisites`,
`aggregateResult`, `handleProcessorError`, `ensureCookies`, `getExecutable`,
`getExecPromise`, `checkErrors`, `send`, `fireAndForget`, `writeErrors`) and
the error classes (`src/errors.js`: `ProcessError`, `InvalidProcessError`,
`ProcessorError`), together with theorems about the embedded definitions.

Modelling conventions:
- JavaScript values are modelled by the inductive `JSValue`; plain objects are
  association lists of string keys in insertion order (`Obj`), with JS
  assignment semantics (overwrite in place, append new keys at the end).
- The two run accumulators `data` and `context` are *heap allocated*: the run
  state holds a `Store` of objects and reference indices, because the engine's
  merge step (`aggregateResult`) rebinds the closure variables to freshly
  created objects, and parallel processors keep references to the objects that
  were current when their `process` function was invoked.  Reference identity
  is exactly what the race-condition claims are about, so it is modelled
  explicitly.
- `context.errors` is one array shared by every copy of the context object
  (JS spread copies the array reference), so it is modelled as a single list
  in the run state; the context object carries an `.arr` marker in its
  `errors` field.
- Asynchronous completion order inside one parallel group is modelled by an
  explicit schedule: each member contributes a `writes` event (its in-place
  mutations, applied to the object references it captured when invoked) and a
  `settle` event (its promise resolution, triggering `aggregateResult` or
  `handleProcessorError`).  A valid schedule is any interleaving that puts
  each member's writes before its own settle.  All members capture the
  references current at group start, and `runIf` is evaluated at group start,
  matching the engine, whose `getExecPromise` calls every `runIf`
  synchronously while creating the promises, and whose process bodies all
  start before any member settles.
- Logging is modelled as an event trace in the run state; processor `process`
  and `runIf` invocations are also recorded as events so that "never invoked"
  claims are statable.
-/

/-- A JavaScript value, restricted to the shapes the engine inspects.
Arrays and Dates only matter for the shape checks (`isRealObj`,
`ensureCookies`), so they are atoms. Nested plain objects are by-value
association lists. -/
inductive JSValue where
  | str (s : String)
  | num (n : Int)
  | boolV (b : Bool)
  | nullV
  | undef
  | arr
  | date
  | objMap (fields : List (String × JSValue))
deriving Repr

/-- A JS plain object: fields in insertion order. -/
abbrev Obj := List (String × JSValue)

/-- Property read `o[k]` (first binding wins; objects built by `setField`
have unique keys). `none` models JS `undefined` absence. -/
def getField (o : Obj) (k : String) : Option JSValue :=
  (o.find? (fun kv => kv.1 = k)).map (fun kv => kv.2)

/-- JS property assignment `o[k] = v`: overwrite in place if the key exists,
otherwise append the key at the end (JS insertion order). -/
def setField (o : Obj) (k : String) (v : JSValue) : Obj :=
  if o.any (fun kv => kv.1 = k) then
    o.map (fun kv => if kv.1 = k then (k, v) else kv)
  else
    o ++ [(k, v)]

/-- JS `delete o[k]`. -/
def deleteField (o : Obj) (k : String) : Obj :=
  o.filter (fun kv => kv.1 ≠ k)

/-- JS object spread `{...a, ...b}`: `a`'s fields in order, updated by and
extended with `b`'s fields. -/
def spreadMerge (a b : Obj) : Obj :=
  b.foldl (fun acc kv => setField acc kv.1 kv.2) a

/-- JS truthiness for the values of `JSValue`. -/
def jsTruthy : JSValue → Bool
  | .str s => s ≠ ""
  | .num n => n ≠ 0
  | .boolV b => b
  | .nullV => false
  | .undef => false
  | .arr => true
  | .date => true
  | .objMap _ => true

/-- `Object.keys` (non-objects have no own enumerable string keys here). -/
def jsKeys : JSValue → List String
  | .objMap l => l.map (fun kv => kv.1)
  | _ => []

/-- `isRealObj` from `src/isRealObj.js`:
`obj && typeof obj === 'object' && !(obj instanceof Date) && !Array.isArray(obj)`.
Only a plain object satisfies it (`null` is falsy, primitives have the wrong
typeof, Dates and arrays are excluded). -/
def isRealObj : JSValue → Bool
  | .objMap _ => true
  | _ => false

/-- The fields of a plain object value (empty for non-objects). -/
def objFieldsOf : JSValue → Obj
  | .objMap l => l
  | _ => []

/-- A heap of plain objects; `data`/`context` accumulators are references
into it. -/
structure Store where
  objs : List Obj
deriving Repr

/-- Dereference (out-of-range reads give an empty object; never exercised by
well-formed runs). -/
def Store.get (s : Store) (r : Nat) : Obj :=
  s.objs.getD r []

/-- In-place update of the object a reference points to. -/
def Store.setObj (s : Store) (r : Nat) (o : Obj) : Store :=
  ⟨s.objs.set r o⟩

/-- Allocate a fresh object, returning its reference. -/
def Store.alloc (s : Store) (o : Obj) : Store × Nat :=
  (⟨s.objs ++ [o]⟩, s.objs.length)

/-! ## `src/errors.js` -/

/-- Error message templates (the `Errors` object in `src/errors.js`). -/
def ProcessErrorMessage (processName : String) : String :=
  s!"Error executing process '{processName}'."

/-- `Errors.InvalidProcessErrorMessage`. -/
def InvalidProcessErrorMessage (processName : String) : String :=
  s!"Process '{processName}' has invalid configuration. See logs for details."

/-- `Errors.ResponseInfoNotObject`. -/
def ResponseInfoNotObject : String :=
  "responseInfo parameter, if defined, must be an object."

/-- The `responseInfo` attached to a `ProcessorError` after construction:
the constructor overwrites `statusCode` with a validated positive integer
and leaves `text`/`errors` as supplied. -/
structure RespInfo where
  text : Option String
  errors : Option JSValue
  statusCode : Int
deriving Repr

/-- A runtime exception value as the engine observes it.  `responseInfo` is
only meaningful when `isProcessorError` is true (the engine only reads it
behind that flag, mirroring the duck-typed JS access). -/
structure Ex where
  message : String
  isProcessorError : Bool
  responseInfo : RespInfo
  doNotLog : Bool
  isEpiError : Bool
deriving Repr

/-- `parseInt(s, 10)` on a string: optional leading whitespace, optional
sign, then a maximal run of decimal digits; `none` is `NaN`. -/
def parseIntPrefix (s : String) : Option Int :=
  let cs := s.data.dropWhile (fun c => c = ' ')
  let signed : Bool × List Char :=
    match cs with
    | '-' :: rest => (true, rest)
    | '+' :: rest => (false, rest)
    | _ => (false, cs)
  let ds := signed.2.takeWhile Char.isDigit
  if ds.isEmpty then none
  else
    let n : Nat := ds.foldl (fun acc c => acc * 10 + (c.toNat - '0'.toNat)) 0
    some (if signed.1 then -(n : Int) else (n : Int))

/-- `parseInt(v, 10)` on a JS value: numbers parse to themselves (the model
keeps integers only), strings parse by prefix, everything else stringifies
to something non-numeric (`NaN`).  (The `arr` atom models an array whose
string form is non-numeric.) -/
def jsParseInt : JSValue → Option Int
  | .num n => some n
  | .str s => parseIntPrefix s
  | _ => none

/-- The `ProcessorError` constructor (`src/errors.js`): throws unless
`responseInfo` is a real object; parses `statusCode` base 10, replacing
`NaN` or non-positive results with 500; pre-marks sub-500 errors as
`doNotLog`. -/
def mkProcessorError (message : String) (responseInfo : JSValue) : Except String Ex :=
  if !isRealObj responseInfo then
    .error ResponseInfoNotObject
  else
    let rawSc := (getField (objFieldsOf responseInfo) "statusCode").getD .undef
    let parsed := jsParseInt rawSc
    let sc : Int :=
      match parsed with
      | none => 500
      | some n => if n ≤ 0 then 500 else n
    let textVal : Option String :=
      match getField (objFieldsOf responseInfo) "text" with
      | some (.str t) => some t
      | _ => none
    let errorsVal := getField (objFieldsOf responseInfo) "errors"
    .ok { message := message
        , isProcessorError := true
        , responseInfo := { text := textVal, errors := errorsVal, statusCode := sc }
        , doNotLog := sc < 500
        , isEpiError := false }

/-- One entry of `context.errors` (the object built in
`handleProcessorError`: `{ occurredIn, message, ex }`). -/
structure ErrInfo where
  occurredIn : String
  message : String
  ex : Ex
deriving Repr

/-- `ProcessError.getMostSevereProcessorError` (`src/errors.js`): among the
wrapped errors, keep those marked `isProcessorError` and fold left keeping
the strictly greater status code (so the first of equals wins); `none` when
the list is empty or no entry qualifies. -/
def getMostSevereProcessorError (errorsFromProcessors : List ErrInfo) : Option Ex :=
  if errorsFromProcessors.isEmpty then none
  else
    ((errorsFromProcessors.map (fun errInfo => errInfo.ex)).filter
        (fun ex => ex.isProcessorError)).foldl
      (fun mostSevere ex =>
        match mostSevere with
        | none => some ex
        | some m => if ex.responseInfo.statusCode > m.responseInfo.statusCode then some ex else some m)
      none

/-- `ProcessError.allErrorsLogged`. -/
def allErrorsLogged (errorsFromProcessors : List ErrInfo) : Bool :=
  errorsFromProcessors.isEmpty || errorsFromProcessors.all (fun err => err.ex.doNotLog)

/-! ## `src/processor.js` — data model -/

/-- A `{processorName, reason}` entry of `invalidConfigs` (pushed by
`addInvalidProcessor`). -/
structure ConfigErr where
  processorName : String
  reason : String
deriving Repr, DecidableEq

/-- An in-place mutation a processor performs on the `data` object it was
handed: a top-level assignment `data.k = v`, or a cookie write
`data.cookies.k = v` (through the cookies object of that same `data`
object; writes through a non-object cookies value are not modelled, the
claims never exercise them). -/
inductive Write where
  | field (k : String) (v : JSValue)
  | cookieField (k : String) (v : JSValue)

/-- What a returned partial-result component denotes: the very `data` or
`context` reference the processor was handed (the common
`return { data, context }` idiom: its contents are read when the merge
runs), or a freshly built literal object. -/
inductive RetSrc where
  | capturedData
  | capturedCtx
  | lit (fields : List (String × JSValue))

/-- A returned `{ data?, context? }` partial result. -/
structure PartialResult where
  dataPart : Option RetSrc
  ctxPart : Option RetSrc

/-- A successful `process` run: its in-place mutations and its returned
value (`none` models returning `undefined`). -/
structure ProcOutcome where
  dataWrites : List Write
  ctxWrites : List (String × JSValue)
  result : Option PartialResult

/-- Settlement of a `process` invocation: fulfilled or rejected. -/
inductive ProcResult where
  | ok (o : ProcOutcome)
  | throws (ex : Ex)

/-- A processor in the shape `createProcessor` guarantees: a name, a `runIf`
(defaulted to always-true at creation when unspecified), a list of
prerequisite names (defaulted to empty), and a `process` function.  `runIf`
and `process` observe the `data`/`context` contents current when they are
called. -/
structure Processor where
  name : String
  runIf : Obj → Obj → Bool
  prerequisites : List String
  process : Obj → Obj → ProcResult

/-- One pipeline step: a plain processor, or an array produced by
`parallel(...)`. -/
inductive Step where
  | single (p : Processor)
  | par (ps : List Processor)

/-- The processors a step contains (`toExec` in `getExecutable`). -/
def stepMembers : Step → List Processor
  | .single p => [p]
  | .par ps => ps

/-- Observable log/trace events of one run. -/
inductive LogEvent where
  | runIfInvoked (name : String)
  | processInvoked (name : String)
  | prereqSkipWarning (processorName : String) (prereq : String)
  | cookieResetError (processorName : String)
  | processorErrorLogged (processorName : String)
deriving Repr, DecidableEq

/-- An entry of the run's `processorsRun` list (`{name, ok}`). -/
structure ProcRun where
  name : String
  ok : Bool
deriving Repr, DecidableEq

/-- The transient per-invocation state of `start`: the object heap, the
current `data`/`context` references (rebound by `aggregateResult`), the
shared `context.errors` array, the `processorsRun` record and the log
trace. -/
structure RunState where
  store : Store
  dataRef : Nat
  ctxRef : Nat
  errors : List ErrInfo
  processorsRun : List ProcRun
  log : List LogEvent

/-- Well-formedness of a run state's accumulator references: both point at
allocated objects and at distinct ones (as the engine's two distinct JS
objects always do). -/
def RefsWF (s : RunState) : Prop :=
  s.dataRef < s.store.objs.length ∧ s.ctxRef < s.store.objs.length ∧ s.dataRef ≠ s.ctxRef

/-- The shape check inside `ensureCookies`:
`typeof data.cookies === 'object' && data.cookies !== null &&
!Array.isArray(data.cookies) && !(data.cookies instanceof Date)`. -/
def cookiesValid (d : Obj) : Bool :=
  match getField d "cookies" with
  | some (.objMap _) => true
  | _ => false

/-- `ensureCookies` from `start`: reset a corrupted `data.cookies` to a
fresh empty object on the current canonical `data`, logging an error. -/
def ensureCookies (processorName : String) (s : RunState) : RunState :=
  let d := s.store.get s.dataRef
  if cookiesValid d then s
  else { s with
          store := s.store.setObj s.dataRef (setField d "cookies" (.objMap []))
        , log := s.log ++ [.cookieResetError processorName] }

/-- Resolve a returned partial-result component at merge time (`d0`/`c0`
are the references the processor captured when it was invoked). -/
def resolveRet (st : Store) (d0 c0 : Nat) : Option RetSrc → Obj
  | none => []
  | some .capturedData => st.get d0
  | some .capturedCtx => st.get c0
  | some (.lit fs) => fs

/-- The merge half of `aggregateResult`: record the success in
`processorsRun`; if the processor returned a result, rebind `context` and
then `data` to freshly allocated objects `{...context, ...result.context}`
/ `{...data, ...result.data}`. -/
def aggregateMerge (s : RunState) (d0 c0 : Nat) (name : String)
    (result : Option PartialResult) : RunState :=
  let s1 := { s with processorsRun := s.processorsRun ++ [⟨name, true⟩] }
  match result with
  | none => s1
  | some r =>
      let ctxObj := spreadMerge (s1.store.get s1.ctxRef) (resolveRet s1.store d0 c0 r.ctxPart)
      let a1 := s1.store.alloc ctxObj
      let dataObj := spreadMerge (a1.1.get s1.dataRef) (resolveRet a1.1 d0 c0 r.dataPart)
      let a2 := a1.1.alloc dataObj
      { s1 with store := a2.1, ctxRef := a1.2, dataRef := a2.2 }

/-- `aggregateResult`: the merge above followed by `ensureCookies`. -/
def aggregateResult (s : RunState) (d0 c0 : Nat) (name : String)
    (result : Option PartialResult) : RunState :=
  ensureCookies name (aggregateMerge s d0 c0 name result)

/-- The record half of `handleProcessorError`: push the failure onto
`processorsRun` and `{occurredIn, message, ex}` onto the shared
`context.errors`; the stored exception ends marked `doNotLog` (either it
was already set, or the handler sets it after logging). -/
def handleRecord (s : RunState) (processorName : String) (ex : Ex) : RunState :=
  { s with
      processorsRun := s.processorsRun ++ [⟨processorName, false⟩]
    , errors := s.errors ++ [⟨processorName, ex.message, { ex with doNotLog := true }⟩] }

/-- `handleProcessorError`: record the failure (see `handleRecord`), run
`ensureCookies`, then log the exception unless `doNotLog`/`isEpiError`
suppress it. -/
def handleProcessorError (s : RunState) (processorName : String) (ex : Ex) : RunState :=
  let s2 := ensureCookies processorName (handleRecord s processorName ex)
  if !(ex.doNotLog || ex.isEpiError) then
    { s2 with log := s2.log ++ [.processorErrorLogged processorName] }
  else s2

/-- The runtime prerequisite check in `getExecutable`: did `prereq` already
run in this invocation and fail?  (`processorsRun.find(p => p.name ===
prereq)` and then `!procRun.ok`.) -/
def prereqFailed (processorsRun : List ProcRun) (prereq : String) : Bool :=
  match processorsRun.find? (fun p => p.name = prereq) with
  | some procRun => !procRun.ok
  | none => false

/-- Whether a member is filtered out of `toExec` by the prerequisite
check. -/
def hasFailedPrereq (processorsRun : List ProcRun) (p : Processor) : Bool :=
  p.prerequisites.any (prereqFailed processorsRun)

/-- One member of a parallel group after the promises were created: its
`runIf` verdict and, when it will run, its `process` settlement.  (The
outcome is computed eagerly here because the model is pure; an actual
invocation is witnessed by the `processInvoked` log event, which is only
emitted when `cond` is true.) -/
structure MemberRun where
  proc : Processor
  cond : Bool
  res : ProcResult

/-- Completion-order events within one parallel group: member `i` performs
its in-place mutations (`writes i`) and then settles (`settle i`). -/
inductive GEvent where
  | writes (i : Nat)
  | settle (i : Nat)
deriving Repr, DecidableEq

/-- Apply one in-place `data` write through the captured reference `d0`. -/
def applyWrite (st : Store) (d0 : Nat) : Write → Store
  | .field k v => st.setObj d0 (setField (st.get d0) k v)
  | .cookieField k v =>
      let d := st.get d0
      match getField d "cookies" with
      | some (.objMap m) => st.setObj d0 (setField d "cookies" (.objMap (setField m k v)))
      | _ => st

/-- Perform a member's in-place mutations on the references it captured. -/
def execWrites (mr : MemberRun) (d0 c0 : Nat) (st : Store) : Store :=
  if !mr.cond then st
  else
    match mr.res with
    | .throws _ => st
    | .ok o =>
        let st1 := o.dataWrites.foldl (fun acc w => applyWrite acc d0 w) st
        o.ctxWrites.foldl (fun acc kv => acc.setObj c0 (setField (acc.get c0) kv.1 kv.2)) st1

/-- Settle a member: a falsy `runIf` resolves `{ data, context }` (the
references current when `getExecPromise` returned), a fulfilled `process`
goes through `aggregateResult`, a rejected one through
`handleProcessorError`. -/
def execSettle (mr : MemberRun) (d0 c0 : Nat) (s : RunState) : RunState :=
  if !mr.cond then
    aggregateResult s d0 c0 mr.proc.name (some ⟨some .capturedData, some .capturedCtx⟩)
  else
    match mr.res with
    | .ok o => aggregateResult s d0 c0 mr.proc.name o.result
    | .throws ex => handleProcessorError s mr.proc.name ex

/-- Execute one schedule event (out-of-range member indices are no-ops and
are excluded by schedule validity). -/
def execEvent (mrs : List MemberRun) (d0 c0 : Nat) (s : RunState) : GEvent → RunState
  | .writes i =>
      match mrs.get? i with
      | some mr => { s with store := execWrites mr d0 c0 s.store }
      | none => s
  | .settle i =>
      match mrs.get? i with
      | some mr => execSettle mr d0 c0 s
      | none => s

/-- `getExecutable` + `await Promise.all(execInfo.promises)` for one step:
filter members whose prerequisites already failed (logging a warning per
member and failed prerequisite, in order); if nothing remains the step is
skipped; otherwise every member captures the references current at group
start, every `runIf` is called synchronously while the promises are
created, every surviving `process` body starts before any member settles,
and then the schedule interleaves the members' mutations and
settlements.  The per-member prerequisite warnings, in member order: -/
def warningsOf (ps : List Processor) (runs : List ProcRun) : List LogEvent :=
  ps.foldl (fun acc p =>
      acc ++ (p.prerequisites.filter (prereqFailed runs)).map
        (fun prereq => LogEvent.prereqSkipWarning p.name prereq)) []

/-- `toExec` after the prerequisite filter. -/
def toExecOf (ps : List Processor) (runs : List ProcRun) : List Processor :=
  ps.filter (fun p => !hasFailedPrereq runs p)

/-- The members of a group with `runIf` verdicts and `process` settlements
computed against the group-start accumulators. -/
def mrsOf (ps : List Processor) (d c : Obj) : List MemberRun :=
  ps.map (fun p => MemberRun.mk p (p.runIf d c) (p.process d c))

def runGroup (ps : List Processor) (sched : List GEvent) (s : RunState) : RunState :=
  let toExec := toExecOf ps s.processorsRun
  let s1 := { s with log := s.log ++ warningsOf ps s.processorsRun }
  if toExec.isEmpty then s1
  else
    let mrs := mrsOf toExec (s1.store.get s1.dataRef) (s1.store.get s1.ctxRef)
    let newLog := s1.log ++ toExec.map (fun p => LogEvent.runIfInvoked p.name) ++
      (mrs.filter (fun mr => mr.cond)).map (fun mr => LogEvent.processInvoked mr.proc.name)
    let s2 := { s1 with log := newLog }
    sched.foldl (fun acc e => execEvent mrs s1.dataRef s1.ctxRef acc e) s2

/-- The canonical events of a `k`-member group. -/
def groupEvents (k : Nat) : List GEvent :=
  (List.range k).map GEvent.writes ++ (List.range k).map GEvent.settle

/-- A valid completion order: a permutation of every member's two events in
which each member's in-place mutations precede its own settlement. -/
def ValidSched (k : Nat) (sched : List GEvent) : Prop :=
  sched.Perm (groupEvents k) ∧
    ∀ i < k, sched.indexOf (GEvent.writes i) < sched.indexOf (GEvent.settle i)

/-- The only completion order of a single-member step. -/
def seqSched : List GEvent := [.writes 0, .settle 0]

/-- `parallel` steps take their completion order from the run's schedule
assignment; a plain step has exactly one. -/
def stepSched (st : Step) (sched : List GEvent) : List GEvent :=
  match st with
  | .single _ => seqSched
  | .par _ => sched

/-! ## `src/processor.js` — the `start` loop and the facade -/

/-- The two throwable process-level errors, as data: `InvalidProcessError`
(carrying `{configurationErrors}` as `details`) and `ProcessError`
(carrying the starting context and the ordered `errorsFromProcessors`). -/
inductive RunError where
  | invalidProcess (processName : String) (configurationErrors : List ConfigErr)
  | processError (processName : String) (startingContext : Obj)
      (errorsFromProcessors : List ErrInfo)

/-- The `message` of a thrown process-level error. -/
def RunError.message : RunError → String
  | .invalidProcess pn _ => InvalidProcessErrorMessage pn
  | .processError pn _ _ => ProcessErrorMessage pn

/-- `checkErrors` inside `start`: with accumulated errors and no
continue-on-error, throw `ProcessError(processName, startingContext,
context.errors)`. -/
def checkErrors (pn : String) (startingContext : Obj) (continueOnError : Bool)
    (errors : List ErrInfo) : Option RunError :=
  if errors.length > 0 && !continueOnError then
    some (.processError pn startingContext errors)
  else none

/-- The fresh per-invocation state: `context = {...startingContext,
processName}` with the shared `errors` array attached, and
`data = { cookies: {} }`. The context object is allocated at reference 0,
the data object at reference 1. -/
def initState (pn : String) (startingContext : Obj) : RunState :=
  let ctxObj := setField (spreadMerge startingContext [("processName", .str pn)]) "errors" .arr
  let dataObj : Obj := [("cookies", .objMap [])]
  { store := ⟨[ctxObj, dataObj]⟩, dataRef := 1, ctxRef := 0
  , errors := [], processorsRun := [], log := [] }

/-- The `for` loop of `start`: before each step check accumulated errors,
then execute the step and await its entire settlement before moving on. -/
def runSteps (pn : String) (startingContext : Obj) (continueOnError : Bool) :
    List (Step × List GEvent) → RunState → Option RunError × RunState
  | [], s => (none, s)
  | (st, σ) :: rest, s =>
      match checkErrors pn startingContext continueOnError s.errors with
      | some e => (some e, s)
      | none => runSteps pn startingContext continueOnError rest
          (runGroup (stepMembers st) (stepSched st σ) s)

/-- Pad the per-step schedule assignment. -/
def padScheds (scheds : List (List GEvent)) (n : Nat) : List (List GEvent) :=
  (List.range n).map (fun i => scheds.getD i seqSched)

/-- What a successful `start` resolves with: `{ data, errors, context }`. -/
structure StartOk where
  data : Obj
  errors : List ErrInfo
  context : Obj

/-- The cookie bookkeeping after the step loop: when no cookies were set,
remove the auto-appended `cookies` object from `data`
(`if (data.cookies && Object.keys(data.cookies).length === 0) delete
data.cookies`). -/
def finalizeCookies (s : RunState) : RunState :=
  let d := s.store.get s.dataRef
  let d1 :=
    match getField d "cookies" with
    | some v => if jsTruthy v && (jsKeys v).isEmpty then deleteField d "cookies" else d
    | none => d
  { s with store := s.store.setObj s.dataRef d1 }

/-- `start(startingContext, continueOnError)`: fail on every start if there
is invalid config (before any run state exists); otherwise create the run
state, iterate the steps, drop the auto-appended `cookies` object if no
cookies were set, re-check errors once after the last step, and resolve
with `{data, errors, context}`.  The second component is the run's trace
(final state), also on the error path. -/
def startRun (pn : String) (invalidConfigs : List ConfigErr) (processors : List Step)
    (startingContext : Obj) (continueOnError : Bool) (scheds : List (List GEvent)) :
    Except RunError StartOk × RunState :=
  if invalidConfigs.length > 0 then
    (.error (.invalidProcess pn invalidConfigs),
      { store := ⟨[]⟩, dataRef := 0, ctxRef := 0, errors := [], processorsRun := [], log := [] })
  else
    match runSteps pn startingContext continueOnError
        (processors.zip (padScheds scheds processors.length)) (initState pn startingContext) with
    | (some e, s) => (.error e, s)
    | (none, s) =>
        match checkErrors pn startingContext continueOnError (finalizeCookies s).errors with
        | some e => (.error e, finalizeCookies s)
        | none =>
            (.ok ⟨(finalizeCookies s).store.get (finalizeCookies s).dataRef
               , (finalizeCookies s).errors
               , (finalizeCookies s).store.get (finalizeCookies s).ctxRef⟩, finalizeCookies s)

/-- The composed process facade: its name, its step list and the
accumulated configuration errors (the `invalidConfigs` closure array), plus
the process-wide default cookie options. -/
structure Facade where
  processName : String
  processors : List Step
  invalidConfigs : List ConfigErr
  cookieOptions : Option Obj

/-- The reason string `addInvalidProcessor` receives from
`validatePrerequisites` (the source's spelling, including the typo). -/
def reasonString (missingPrereqs : List String) : String :=
  "Prequisites not found before processor in pipeline: " ++
    String.intercalate "," missingPrereqs

/-- `validatePrerequisites(processor, loaded)`: the prerequisites with no
processor of that name among `loaded` produce one `ConfigurationError`
naming the declaring processor and joining every missing name. -/
def validatePrerequisites (p : Processor) (loaded : List Processor) : List ConfigErr :=
  let missingPrereqs := p.prerequisites.filter
      (fun prereq => !(loaded.any (fun q => q.name = prereq)))
  if missingPrereqs.isEmpty then [] else [⟨p.name, reasonString missingPrereqs⟩]

/-- `validatePipeline(pipeline, allLoaded)`: walk the steps keeping the
processors loaded so far; members of a parallel step are validated against
the processors loaded strictly before the step and only then added
collectively. -/
def validatePipelineGo : List Step → List Processor → List ConfigErr
  | [], _ => []
  | (.single p) :: rest, allLoaded =>
      validatePrerequisites p allLoaded ++ validatePipelineGo rest (allLoaded ++ [p])
  | (.par ps) :: rest, allLoaded =>
      (ps.foldl (fun acc p => acc ++ validatePrerequisites p allLoaded) []) ++
        validatePipelineGo rest (allLoaded ++ ps)

/-- `validatePipeline(processors)` as called at the end of `compose`. -/
def validatePipeline (pipeline : List Step) : List ConfigErr :=
  validatePipelineGo pipeline []

/-- `compose(processName, {processors, cookieOptions})` with an explicit
pipeline: the facade starts with the configuration errors found by
`validatePipeline`. -/
def compose (processName : String) (processors : List Step)
    (cookieOptions : Option Obj) : Facade :=
  ⟨processName, processors, validatePipeline processors, cookieOptions⟩

/-- `processors.flat(Infinity)`: the flattened processor list used as the
default `loaded` argument of `validatePrerequisites` during `register`. -/
def flattenSteps (steps : List Step) : List Processor :=
  steps.foldl (fun acc st => acc ++ stepMembers st) []

/-- `register(name, processor)`: validate the new processor's prerequisites
against everything currently loaded (appending any diagnostic to
`invalidConfigs`), then append it unless a top-level processor of that name
already exists (`processors.some(p => p.name === processor.name)` — an
array step has no `name`, so only top-level singles are compared; a
duplicate logs a warning and is skipped). `createProcessor`'s dynamic type
checks cannot fail in this typed model. -/
def register (f : Facade) (p : Processor) : Facade :=
  let newInvalid := f.invalidConfigs ++ validatePrerequisites p (flattenSteps f.processors)
  if f.processors.any (fun st =>
      match st with
      | .single q => q.name = p.name
      | .par _ => false) then
    { f with invalidConfigs := newInvalid }
  else
    { f with invalidConfigs := newInvalid, processors := f.processors ++ [.single p] }

/-- `removeProcessor(processorName, processorList)` applied to one step:
arrays are recursively filtered and dropped when emptied; plain processors
are dropped by name. -/
def removeProcessorStep (processorName : String) (st : Step) : Option Step :=
  match st with
  | .single p => if p.name = processorName then none else some (.single p)
  | .par ps =>
      let ps2 := ps.filter (fun p => p.name ≠ processorName)
      if ps2.isEmpty then none else some (.par ps2)

/-- `deregister(processorName)`: remove the processor from the step list.
The accompanying `invalidConfigs.filter(p => p.name !== processorName)`
compares the *nonexistent* `name` field of `{processorName, reason}`
entries, i.e. `undefined !== processorName`, so every entry is kept:
`invalidConfigs` is unchanged.  No re-validation of the remaining
processors' prerequisites happens. -/
def deregister (f : Facade) (processorName : String) : Facade :=
  { f with processors := f.processors.filterMap (removeProcessorStep processorName) }

/-- `facade.start(...)`. -/
def Facade.start (f : Facade) (startingContext : Obj) (continueOnError : Bool)
    (scheds : List (List GEvent)) : Except RunError StartOk × RunState :=
  startRun f.processName f.invalidConfigs f.processors startingContext continueOnError scheds

/-! ## `send`, `writeErrors`, `fireAndForget` (with `src/response.js`) -/

/-- `undefined`-ness as `mergeOptions` and the cookie duck-typing test it:
an absent field or an explicit `undefined` value. -/
def isUndefOpt : Option JSValue → Bool
  | none => true
  | some .undef => true
  | some _ => false

/-- `mergeOptions(options, defaults)`: start from `options` and add every
`defaults` key that has a defined value and is still undefined in the
result. -/
def mergeOptions (options : Obj) (defaults : Option Obj) : Obj :=
  match defaults with
  | none => options
  | some ds =>
      ds.foldl (fun newOptions kv =>
        if !(isUndefOpt (some kv.2)) && isUndefOpt (getField newOptions kv.1) then
          setField newOptions kv.1 kv.2
        else newOptions) options

/-- The `errors` argument a `sendErrors` call carries: either the
`responseInfo.errors` payload of a processor error, or the
`{configurationErrors}` details of an `InvalidProcessError`. -/
inductive ErrPayload where
  | respErrors (v : Option JSValue)
  | configDetails (configurationErrors : List ConfigErr)

/-- Calls `send` makes on the response object (`res.cookie`,
`res.clearCookie`, and `sendOk`/`sendErrors` from `src/response.js`; the
recorded status code is the effective one after `sendErrors`' default of
500). -/
inductive ResCall where
  | cookie (name : String) (value : JSValue) (options : Option JSValue)
  | clearCookie (name : String) (options : Option JSValue)
  | sendOkCall (data : Obj)
  | sendErrorsCall (message : String) (errors : ErrPayload) (statusCode : Int)

/-- JS `a || b` for an optional string (an empty string is falsy). -/
def jsOrStr (a : Option String) (b : String) : String :=
  match a with
  | some s => if s = "" then b else s
  | none => b

/-- `writeErrors(res, ex)`: a `ProcessError` surfaces its most severe
processor error (text/errors/status from its `responseInfo`, message
falling back through `processorError.message` to `ex.message`, status
defaulting to 500 when there is no processor error); an
`InvalidProcessError` sends its message with its `details`.  The boolean is
`shouldLog`: whether the process-level `error(...)` log line fires. -/
def writeErrors (ex : RunError) : List ResCall × Bool :=
  match ex with
  | .processError pn _sc errs =>
      let calls :=
        match getMostSevereProcessorError errs with
        | some pe =>
            [ResCall.sendErrorsCall
              (jsOrStr pe.responseInfo.text (jsOrStr (some pe.message) (ProcessErrorMessage pn)))
              (.respErrors pe.responseInfo.errors)
              pe.responseInfo.statusCode]
        | none =>
            [ResCall.sendErrorsCall (ProcessErrorMessage pn) (.respErrors none) 500]
      (calls, !allErrorsLogged errs)
  | .invalidProcess pn cfg =>
      ([ResCall.sendErrorsCall (InvalidProcessErrorMessage pn) (.configDetails cfg) 500], true)

/-- The per-cookie translation inside `send`: duck-typed
`{value, options}` objects (exactly those two keys, both defined) carry
their own options merged over the process defaults; a `null` value clears
the cookie; anything else is set as-is with the defaults. -/
def mkCookieCall (defaultOptions : Option Obj) (name : String) (valIn : JSValue) : ResCall :=
  let dflt : Option JSValue := defaultOptions.map .objMap
  match valIn with
  | .objMap m =>
      let v := getField m "value"
      let o := getField m "options"
      if !(isUndefOpt v) && !(isUndefOpt o) && m.length = 2 then
        let innerOpts : Obj := match o with | some (.objMap l) => l | _ => []
        let merged : JSValue := .objMap (mergeOptions innerOpts defaultOptions)
        match v with
        | some .nullV => .clearCookie name (some merged)
        | some vv => .cookie name vv (some merged)
        | none => .cookie name .undef (some merged)
      else .cookie name (.objMap m) dflt
  | .nullV => .clearCookie name dflt
  | v => .cookie name v dflt

/-- What one `send(res, startingContext, continueOnError)` invocation does:
run `start`; rethrow accumulated errors as a `ProcessError`; translate any
cookies onto the response (unless the response does not support cookies, in
which case `send` warns and returns without a body); send the data.  Errors
go through `writeErrors`.  Fields: the response calls made, the run trace,
whether the cookie-support warning fired, and whether the process-level
error log line fired. -/
structure SendResult where
  calls : List ResCall
  trace : RunState
  warnedNoCookies : Bool
  errorLogged : Bool

/-- `send` from `compose`. -/
def send (f : Facade) (resSupportsCookies : Bool) (startingContext : Obj)
    (continueOnError : Bool) (scheds : List (List GEvent)) : SendResult :=
  match f.start startingContext continueOnError scheds with
  | (.error e, s) =>
      let w := writeErrors e
      ⟨w.1, s, false, w.2⟩
  | (.ok r, s) =>
      if r.errors.length > 0 then
        let w := writeErrors (.processError f.processName startingContext r.errors)
        ⟨w.1, s, false, w.2⟩
      else
        let cookieNames :=
          match getField r.data "cookies" with
          | some v => if jsTruthy v then jsKeys v else []
          | none => []
        if cookieNames.isEmpty then ⟨[.sendOkCall r.data], s, false, false⟩
        else if !resSupportsCookies then ⟨[], s, true, false⟩
        else
          let cookiePairs : Obj :=
            match getField r.data "cookies" with
            | some (.objMap m) => m
            | _ => []
          let cookieCalls := cookiePairs.map (fun kv => mkCookieCall f.cookieOptions kv.1 kv.2)
          ⟨cookieCalls ++ [.sendOkCall (deleteField r.data "cookies")], s, false, false⟩

/-- `fireAndForget`: run `start`, rethrow accumulated errors, and log any
caught error once unless it is a fully logged `ProcessError`.  Returns the
run trace and whether the catch block logged. -/
def fireAndForget (f : Facade) (startingContext : Obj) (continueOnError : Bool)
    (scheds : List (List GEvent)) : RunState × Bool :=
  match f.start startingContext continueOnError scheds with
  | (.ok r, s) =>
      if r.errors.length > 0 then (s, !allErrorsLogged r.errors) else (s, false)
  | (.error e, s) =>
      match e with
      | .processError _ _ errs => (s, !allErrorsLogged errs)
      | .invalidProcess _ _ => (s, true)

/-! ## Specification-side definitions

These follow the spec's words, independently of the engine's heap-and-
schedule machinery, to state refinement claims against. -/

/-- The exceptions `getMostSevereProcessorError` ranks: the originating
errors of the wrapped failures that are `ProcessorError` instances (the
status-code carriers). -/
def procExes (errorsFromProcessors : List ErrInfo) : List Ex :=
  (errorsFromProcessors.map (fun errInfo => errInfo.ex)).filter
    (fun ex => ex.isProcessorError)

/-- Spec-side flattening for prerequisite validation: each processor paired
with the names appearing *strictly earlier* in the flattened step sequence
— a plain step makes its processor available to everything after it;
members of one parallel group share the names available before the group
and do not count as earlier than each other. -/
def flattenWithEarlier : List Step → List String → List (Processor × List String)
  | [], _ => []
  | (.single p) :: rest, earlier =>
      (p, earlier) :: flattenWithEarlier rest (earlier ++ [p.name])
  | (.par ps) :: rest, earlier =>
      (ps.map (fun p => (p, earlier))) ++
        flattenWithEarlier rest (earlier ++ ps.map (fun p => p.name))

/-- The prerequisites of `p` with no match strictly earlier. -/
def missingOf (pe : Processor × List String) : List String :=
  pe.1.prerequisites.filter (fun prereq => !(pe.2.contains prereq))

/-- The configuration errors the spec demands: one entry per processor with
missing prerequisites, naming the processor and joining every missing
name. -/
def specConfigErrs (steps : List Step) : List ConfigErr :=
  (flattenWithEarlier steps []).filterMap (fun pe =>
    if (missingOf pe).isEmpty then none
    else some ⟨pe.1.name, reasonString (missingOf pe)⟩)

/-- A JS-representable object: its keys are distinct (a real JS object can
never carry a duplicate key). -/
def WFObj (o : Obj) : Prop :=
  (o.map (fun kv => kv.1)).Nodup

/-- Spec-side sequential run state: the accumulators and bookkeeping of a
run with no parallel groups, with no heap. -/
structure SimpleState where
  data : Obj
  ctx : Obj
  errors : List ErrInfo
  processorsRun : List ProcRun

/-- One in-place mutation, spec-side. -/
def applySimpleWrite (d : Obj) : Write → Obj
  | .field k v => setField d k v
  | .cookieField k v =>
      match getField d "cookies" with
      | some (.objMap m) => setField d "cookies" (.objMap (setField m k v))
      | _ => d

/-- Spec-side resolution of a returned partial-result component: in a
sequential run the captured references are the current accumulators. -/
def resolveRetSimple (d c : Obj) : Option RetSrc → Obj
  | none => []
  | some .capturedData => d
  | some .capturedCtx => c
  | some (.lit fs) => fs

/-- The cookie-shape guard applied after a processor settles. -/
def specCookieGuard (d : Obj) : Obj :=
  if cookiesValid d then d else setField d "cookies" (.objMap [])

/-- One processor's merge, folded strictly left-to-right by a sequential
pipeline: runtime prerequisite skip; `runIf` gate (falsy: automatic
success, no merge effect); in-place mutations; shallow last-write-wins
overlay of any returned partial result onto the accumulators; error
capture. -/
def specSeqStep (s : SimpleState) (p : Processor) : SimpleState :=
  if hasFailedPrereq s.processorsRun p then s
  else if p.runIf s.data s.ctx then
    match p.process s.data s.ctx with
    | .ok o =>
        let d1 := o.dataWrites.foldl applySimpleWrite s.data
        let c1 := o.ctxWrites.foldl (fun acc kv => setField acc kv.1 kv.2) s.ctx
        let c2 :=
          match o.result with
          | none => c1
          | some r => spreadMerge c1 (resolveRetSimple d1 c1 r.ctxPart)
        let d2 :=
          match o.result with
          | none => d1
          | some r => spreadMerge d1 (resolveRetSimple d1 c1 r.dataPart)
        { data := specCookieGuard d2, ctx := c2, errors := s.errors
        , processorsRun := s.processorsRun ++ [⟨p.name, true⟩] }
    | .throws ex =>
        { data := specCookieGuard s.data, ctx := s.ctx
        , errors := s.errors ++ [⟨p.name, ex.message, { ex with doNotLog := true }⟩]
        , processorsRun := s.processorsRun ++ [⟨p.name, false⟩] }
  else
    { data := specCookieGuard s.data, ctx := s.ctx, errors := s.errors
    , processorsRun := s.processorsRun ++ [⟨p.name, true⟩] }

/-- The spec-side halting fold over a sequential pipeline. -/
def specFoldGo (pn : String) (sc : Obj) (co : Bool) :
    List Processor → SimpleState → Option RunError × SimpleState
  | [], s => (none, s)
  | p :: rest, s =>
      match checkErrors pn sc co s.errors with
      | some e => (some e, s)
      | none => specFoldGo pn sc co rest (specSeqStep s p)

/-- The spec-side result of a sequential run: fold the merges left-to-right
with the pre-step error checks, drop an untouched empty cookies object, and
re-check errors once after the last processor. -/
def specFold (pn : String) (sc : Obj) (co : Bool) (ps : List Processor) :
    Except RunError (Obj × List ErrInfo × Obj) :=
  let s0 : SimpleState :=
    ⟨[("cookies", .objMap [])]
    , setField (spreadMerge sc [("processName", .str pn)]) "errors" .arr
    , [], []⟩
  match specFoldGo pn sc co ps s0 with
  | (some e, _) => .error e
  | (none, s) =>
      let d1 :=
        match getField s.data "cookies" with
        | some v => if jsTruthy v && (jsKeys v).isEmpty then deleteField s.data "cookies" else s.data
        | none => s.data
      match checkErrors pn sc co s.errors with
      | some e => .error e
      | none => .ok (d1, s.errors, s.ctx)

/-- The simulation relation of the sequential refinement: the heap run's
accumulators, error list and bookkeeping coincide with the spec-side
sequential state, and the references are well-formed. -/
def SimRel (s : RunState) (q : SimpleState) : Prop :=
  s.store.get s.dataRef = q.data ∧ s.store.get s.ctxRef = q.ctx ∧
  s.errors = q.errors ∧ s.processorsRun = q.processorsRun ∧ RefsWF s

/-! ## Schedule validity bookkeeping -/

/-- Decidable check of `ValidSched`. -/
def validSchedB (k : Nat) (sched : List GEvent) : Bool :=
  sched.isPerm (groupEvents k) &&
    (List.range k).all (fun i => sched.indexOf (GEvent.writes i) < sched.indexOf (GEvent.settle i))

/-- How many members of a step survive the runtime prerequisite filter in
the given run state. -/
def stepExecCount (s : RunState) (st : Step) : Nat :=
  ((stepMembers st).filter (fun p => !hasFailedPrereq s.processorsRun p)).length

/-- Validity of a run's schedule assignment: along the run, each step that
actually executes members gets a valid completion order for exactly those
members. -/
def schedsValidB (pn : String) (sc : Obj) (co : Bool) :
    List (Step × List GEvent) → RunState → Bool
  | [], _ => true
  | (st, σ) :: rest, s =>
      match checkErrors pn sc co s.errors with
      | some _ => true
      | none =>
          (stepExecCount s st == 0 || validSchedB (stepExecCount s st) (stepSched st σ)) &&
            schedsValidB pn sc co rest (runGroup (stepMembers st) (stepSched st σ) s)

/-! ## Concrete fixtures used by witnesses and counterexamples -/

/-- A processor that does nothing and returns nothing. -/
def trivialProc (name : String) : Processor :=
  { name := name, runIf := fun _ _ => true, prerequisites := []
  , process := fun _ _ => .ok ⟨[], [], none⟩ }

/-- `test/composition/waitAndNoReturn.js`: the slow member that mutates
`data`/`context` in place and returns nothing. -/
def waitAndNoReturnProc : Processor :=
  { name := "waitAndNoReturn", runIf := fun _ _ => true, prerequisites := []
  , process := fun _ _ => .ok
      ⟨[.field "slowDataNoReturn" (.str "slowDataNoReturn")]
      , [("slowContextNoReturn", .str "slowContextNoReturn")]
      , none⟩ }

/-- The fast `modifyAndReturn` member of `test/race.spec.js`: mutates in
place and returns `{ data, context }`. -/
def modifyAndReturnProc : Processor :=
  { name := "modifyAndReturn", runIf := fun _ _ => true, prerequisites := []
  , process := fun _ _ => .ok
      ⟨[.field "modifyAndReturnData" (.str "modifyAndReturnData")]
      , [("modifyAndReturnContext", .str "modifyAndReturnContext")]
      , some ⟨some .capturedData, some .capturedCtx⟩⟩ }

/-- Completion order in which the fast member (index 1) settles first and
the slow member (index 0) mutates afterwards. -/
def raceSched : List GEvent := [.writes 1, .settle 1, .writes 0, .settle 0]

/-- The reverse completion order: the no-return member finishes first. -/
def raceSchedRev : List GEvent := [.writes 0, .settle 0, .writes 1, .settle 1]

/-- A plain (non-`ProcessorError`) thrown exception. -/
def plainEx (message : String) : Ex :=
  ⟨message, false, ⟨none, none, 0⟩, false, false⟩

/-- A `ProcessorError` with the given status code (as produced by the
constructor for an in-range supplied code). -/
def statusEx (message : String) (statusCode : Int) : Ex :=
  ⟨message, true, ⟨none, none, statusCode⟩, statusCode < 500, false⟩

/-- A processor that always throws the given exception. -/
def throwingProc (name : String) (ex : Ex) : Processor :=
  { name := name, runIf := fun _ _ => true, prerequisites := []
  , process := fun _ _ => .throws ex }

/-- A processor writing one data field. -/
def writerProc (name : String) (k : String) (v : JSValue) : Processor :=
  { name := name, runIf := fun _ _ => true, prerequisites := []
  , process := fun _ _ => .ok ⟨[.field k v], [], none⟩ }

/-- A processor with a prerequisite, writing one data field. -/
def dependentProc (name : String) (prereq : String) (k : String) (v : JSValue) : Processor :=
  { name := name, runIf := fun _ _ => true, prerequisites := [prereq]
  , process := fun _ _ => .ok ⟨[.field k v], [], none⟩ }

/-- A processor declaring two prerequisites. -/
def multiPrereqProc : Processor :=
  { name := "multi", runIf := fun _ _ => true
  , prerequisites := ["getBar", "getBaz"]
  , process := fun _ _ => .ok ⟨[], [], none⟩ }

/-- A mid-run state in which processor `boom` has already run and failed
(as `getExecutable` would see it before a later step). -/
def afterBoomState : RunState :=
  { store := ⟨[[("processName", .str "Skip"), ("errors", .arr)], [("cookies", .objMap [])]]⟩
  , dataRef := 1, ctxRef := 0, errors := []
  , processorsRun := [⟨"boom", false⟩], log := [] }

/-- A processor corrupting `data.cookies` in place (sets it to `null`) and
returning nothing. -/
def cookieCorruptorProc : Processor :=
  { name := "corruptor", runIf := fun _ _ => true, prerequisites := []
  , process := fun _ _ => .ok ⟨[.field "cookies" .nullV], [], none⟩ }

/-- A processor writing one cookie. -/
def cookieWriterProc : Processor :=
  { name := "cookieWriter", runIf := fun _ _ => true, prerequisites := []
  , process := fun _ _ => .ok ⟨[.cookieField "foo" (.str "bar")], [], none⟩ }

/-- A run state whose canonical `data` object has `cookies` corrupted in
place to `null` (as the corruptor processor leaves it). -/
def corruptedCookiesState : RunState :=
  { store := ⟨[[("processName", .str "Cookies"), ("errors", .arr)], [("cookies", .nullV)]]⟩
  , dataRef := 1, ctxRef := 0, errors := [], processorsRun := [], log := [] }

/-- The successful result of running the corruptor followed by the cookie
writer: the reset mapping received the write. -/
def c8Result : StartOk :=
  { data := [("cookies", .objMap [("foo", .str "bar")])]
  , errors := []
  , context := [("processName", .str "Cookies"), ("errors", .arr)] }

/-- A mid-run state that has already accumulated one processor error. -/
def erroredState : RunState :=
  { store := ⟨[[("processName", .str "Halt"), ("errors", .arr)], [("cookies", .objMap [])]]⟩
  , dataRef := 1, ctxRef := 0
  , errors := [⟨"boom", "kaboom", plainEx "kaboom"⟩]
  , processorsRun := [⟨"boom", true⟩], log := [] }

/-- A pipeline whose single (hence last) step throws. -/
def c6LastSteps : List Step := [.single (throwingProc "boom" (plainEx "kaboom"))]

/-- The state reached after the step loop on that pipeline: the loop itself
reports no error (the throw happened in the last step), but the error list
is non-empty. -/
def c6End : RunState :=
  (runSteps "Halt" [] false (c6LastSteps.zip (padScheds [] 1)) (initState "Halt" [])).2

/-- The successful result of a trivial one-processor run. -/
def c6OkResult : StartOk :=
  { data := [], errors := []
  , context := [("processName", .str "Halt"), ("errors", .arr)] }

/-- The exception built by a successful `ProcessorError('boom',
{statusCode: 400})`. -/
def c10Ex : Ex := ⟨"boom", true, ⟨none, none, 400⟩, true, false⟩

/-! ## Helper lemmas shared across claims -/

/-- With a non-empty `invalidConfigs`, `startRun` throws the
`InvalidProcessError` immediately, with an empty trace. -/
theorem startRun_invalid (pn : String) (invalidConfigs : List ConfigErr)
    (processors : List Step) (sc : Obj) (co : Bool) (scheds : List (List GEvent))
    (h : invalidConfigs ≠ []) :
    startRun pn invalidConfigs processors sc co scheds =
      (.error (.invalidProcess pn invalidConfigs),
        { store := ⟨[]⟩, dataRef := 0, ctxRef := 0, errors := []
        , processorsRun := [], log := [] }) := by
  unfold startRun
  rw [if_pos]
  exact List.length_pos.mpr h

/-- The step loop processes a concatenation by finishing the first part
before the second is looked at: step N+1 is never initiated until step N's
settlement is complete. -/
theorem runSteps_append (pn : String) (sc : Obj) (co : Bool)
    (l₁ l₂ : List (Step × List GEvent)) (s : RunState) :
    runSteps pn sc co (l₁ ++ l₂) s =
      match runSteps pn sc co l₁ s with
      | (some e, s1) => (some e, s1)
      | (none, s1) => runSteps pn sc co l₂ s1 := by
  induction l₁ generalizing s with
  | nil => simp [runSteps]
  | cons hd tl ih =>
      obtain ⟨st, σ⟩ := hd
      simp only [List.cons_append, runSteps]
      cases checkErrors pn sc co s.errors with
      | some e => simp
      | none => simp [ih]

/-! ## Claim theorems -/

/-- **C1** (evaluation at the failing input): in the parallel group
`[waitAndNoReturn, modifyAndReturn]`, when the fast member settles first
returning `{ data, context }` and the slow member then performs its
in-place mutations on the references it captured and returns nothing, the
run's final `data`/`context` LACK the slow member's writes
(`slowDataNoReturn` / `slowContextNoReturn`) even though the member ran,
settled `ok`, and its writes are present on the (stale) objects it
mutated — the merge rebinds the canonical accumulators to fresh spread
copies instead of overlaying onto the canonical references.  Under the
reverse completion order the writes survive, so the outcome depends on
completion order, contradicting the claim (and the repository's own
`race.spec.js`).  The chosen completion order is a valid schedule. -/
theorem c1_race_inPlace_write_lost :
    (startRun "Race" [] [.par [waitAndNoReturnProc, modifyAndReturnProc]]
        [("starter", .boolV true)] false [raceSched]).1 =
      .ok ⟨[("modifyAndReturnData", .str "modifyAndReturnData")], [],
        [("starter", .boolV true), ("processName", .str "Race"), ("errors", .arr),
         ("modifyAndReturnContext", .str "modifyAndReturnContext")]⟩ ∧
    (∀ r, (startRun "Race" [] [.par [waitAndNoReturnProc, modifyAndReturnProc]]
        [("starter", .boolV true)] false [raceSched]).1 = .ok r →
      getField r.data "slowDataNoReturn" = none ∧
      getField r.context "slowContextNoReturn" = none) ∧
    (LogEvent.processInvoked "waitAndNoReturn" ∈
      (startRun "Race" [] [.par [waitAndNoReturnProc, modifyAndReturnProc]]
        [("starter", .boolV true)] false [raceSched]).2.log) ∧
    (ProcRun.mk "waitAndNoReturn" true ∈
      (startRun "Race" [] [.par [waitAndNoReturnProc, modifyAndReturnProc]]
        [("starter", .boolV true)] false [raceSched]).2.processorsRun) ∧
    (getField ((startRun "Race" [] [.par [waitAndNoReturnProc, modifyAndReturnProc]]
        [("starter", .boolV true)] false [raceSched]).2.store.get 1)
        "slowDataNoReturn" = some (.str "slowDataNoReturn")) ∧
    (startRun "Race" [] [.par [waitAndNoReturnProc, modifyAndReturnProc]]
        [("starter", .boolV true)] false [raceSchedRev]).1 =
      .ok ⟨[("slowDataNoReturn", .str "slowDataNoReturn"),
            ("modifyAndReturnData", .str "modifyAndReturnData")], [],
        [("starter", .boolV true), ("processName", .str "Race"), ("errors", .arr),
         ("slowContextNoReturn", .str "slowContextNoReturn"),
         ("modifyAndReturnContext", .str "modifyAndReturnContext")]⟩ ∧
    validSchedB 2 raceSched = true ∧ validSchedB 2 raceSchedRev = true := by
  refine ⟨rfl, ?_, by decide, by decide, rfl, rfl, by decide, by decide⟩
  intro r hr
  rw [show r = (⟨[("modifyAndReturnData", .str "modifyAndReturnData")], [],
        [("starter", .boolV true), ("processName", .str "Race"), ("errors", .arr),
         ("modifyAndReturnContext", .str "modifyAndReturnContext")]⟩ : StartOk)
      from by injection hr.symm.trans rfl]
  exact ⟨rfl, rfl⟩

/-- **C10**: every successfully constructed `ProcessorError` stores a
positive `responseInfo.statusCode`: the supplied `statusCode` parsed base
10, used as-is when positive, replaced by 500 when parsing yields `NaN` or
a non-positive value (including when no `statusCode` is supplied); and
`doNotLog` is set exactly when the resulting code is below 500.  The
constructor throws exactly when `responseInfo` is not a plain object. -/
theorem c10_processorError_constructor (message : String) (responseInfo : JSValue) :
    (mkProcessorError message responseInfo = .error ResponseInfoNotObject ↔
      isRealObj responseInfo = false) ∧
    (∀ e, mkProcessorError message responseInfo = .ok e →
      0 < e.responseInfo.statusCode ∧
      (∀ n : Int,
        jsParseInt ((getField (objFieldsOf responseInfo) "statusCode").getD .undef) = some n →
        0 < n → e.responseInfo.statusCode = n) ∧
      ((∀ n : Int,
        jsParseInt ((getField (objFieldsOf responseInfo) "statusCode").getD .undef) = some n →
        n ≤ 0) → e.responseInfo.statusCode = 500) ∧
      (e.doNotLog = true ↔ e.responseInfo.statusCode < 500)) := by
  constructor
  · unfold mkProcessorError
    cases h : isRealObj responseInfo <;> simp
  · intro e he
    unfold mkProcessorError at he
    by_cases h : isRealObj responseInfo
    · simp only [h, Bool.not_true, Bool.false_eq_true, if_false, ite_false] at he
      injection he with he
      subst he
      rcases hp : jsParseInt ((getField (objFieldsOf responseInfo) "statusCode").getD .undef) with _ | n
      · refine ⟨show (0:Int) < 500 by norm_num, ?_, fun _ => rfl, ?_⟩
        · intro n hn
          exact absurd hn (by simp)
        · exact show (decide ((500:Int) < 500) = true ↔ (500:Int) < 500) by simp
      · have hred : (match some n with
            | none => (500:Int)
            | some m => if m ≤ 0 then 500 else m) = if n ≤ 0 then 500 else n := rfl
        by_cases hn : n ≤ 0
        · refine ⟨?_, ?_, ?_, ?_⟩
          · exact show (0:Int) < (if n ≤ 0 then 500 else n) by rw [if_pos hn]; norm_num
          · intro m hm hmpos
            injection hm with hm
            omega
          · exact fun _ => show (if n ≤ 0 then (500:Int) else n) = 500 by rw [if_pos hn]
          · show decide ((if n ≤ 0 then (500:Int) else n) < 500) = true ↔
              (if n ≤ 0 then (500:Int) else n) < 500
            simp
        · push_neg at hn
          refine ⟨?_, ?_, ?_, ?_⟩
          · exact show (0:Int) < (if n ≤ 0 then 500 else n) by rw [if_neg (by omega)]; omega
          · intro m hm _
            injection hm with hm
            subst hm
            show (if n ≤ 0 then (500:Int) else n) = n
            rw [if_neg (by omega)]
          · intro hall
            exact absurd (hall n rfl) (by omega)
          · show decide ((if n ≤ 0 then (500:Int) else n) < 500) = true ↔
              (if n ≤ 0 then (500:Int) else n) < 500
            simp
    · rw [if_pos (by simp [h])] at he
      exact absurd he (by simp)

/-- **C4**: a facade carrying configuration errors fails every `start`
invocation deterministically with the invalid-configuration error carrying
those errors, before any run state exists — the trace is empty: no
processor's `runIf` or `process` is ever invoked, nothing ran, no runtime
error accumulated.  `send` (for any response capabilities) writes exactly
the one `sendErrors` call built from that error, and `fireAndForget` logs
it; both delegate to the same failing `start`. -/
theorem c4_invalid_config_fails_every_run (f : Facade) (sc : Obj) (co : Bool)
    (scheds : List (List GEvent)) (b : Bool)
    (h : f.invalidConfigs ≠ []) :
    (f.start sc co scheds).1 = .error (.invalidProcess f.processName f.invalidConfigs) ∧
    (f.start sc co scheds).2.log = [] ∧
    (f.start sc co scheds).2.processorsRun = [] ∧
    (f.start sc co scheds).2.errors = [] ∧
    (send f b sc co scheds).calls =
      [.sendErrorsCall (InvalidProcessErrorMessage f.processName)
        (.configDetails f.invalidConfigs) 500] ∧
    (send f b sc co scheds).trace.log = [] ∧
    (fireAndForget f sc co scheds).2 = true ∧
    (fireAndForget f sc co scheds).1.log = [] := by
  have hs : f.start sc co scheds =
      (.error (.invalidProcess f.processName f.invalidConfigs),
        { store := ⟨[]⟩, dataRef := 0, ctxRef := 0, errors := []
        , processorsRun := [], log := [] }) := by
    unfold Facade.start
    exact startRun_invalid f.processName f.invalidConfigs f.processors sc co scheds h
  refine ⟨by rw [hs], by rw [hs], by rw [hs], by rw [hs], ?_, ?_, ?_, ?_⟩
  · show (send f b sc co scheds).calls = _
    unfold send
    rw [hs]
    rfl
  · show (send f b sc co scheds).trace.log = _
    unfold send
    rw [hs]
  · show (fireAndForget f sc co scheds).2 = _
    unfold fireAndForget
    rw [hs]
  · show (fireAndForget f sc co scheds).1.log = _
    unfold fireAndForget
    rw [hs]


/-- Witness for C4 at a concrete facade: composing a pipeline whose only
processor declares a missing prerequisite yields a configuration error, and
every run/send/fire attempt fails as the theorem states. -/
theorem c4_invalid_config_witness :
    ((compose "Bad" [.single (dependentProc "doFoo" "getBar" "foo" (.str "bar"))] none).start
        [] false []).1 =
      .error (.invalidProcess "Bad" [⟨"doFoo", reasonString ["getBar"]⟩]) ∧
    ((compose "Bad" [.single (dependentProc "doFoo" "getBar" "foo" (.str "bar"))] none).start
        [] false []).2.log = [] ∧
    ((compose "Bad" [.single (dependentProc "doFoo" "getBar" "foo" (.str "bar"))] none).start
        [] false []).2.processorsRun = [] ∧
    ((compose "Bad" [.single (dependentProc "doFoo" "getBar" "foo" (.str "bar"))] none).start
        [] false []).2.errors = [] ∧
    (send (compose "Bad" [.single (dependentProc "doFoo" "getBar" "foo" (.str "bar"))] none)
        true [] false []).calls =
      [.sendErrorsCall (InvalidProcessErrorMessage "Bad")
        (.configDetails [⟨"doFoo", reasonString ["getBar"]⟩]) 500] ∧
    (send (compose "Bad" [.single (dependentProc "doFoo" "getBar" "foo" (.str "bar"))] none)
        true [] false []).trace.log = [] ∧
    (fireAndForget (compose "Bad" [.single (dependentProc "doFoo" "getBar" "foo" (.str "bar"))] none)
        [] false []).2 = true ∧
    (fireAndForget (compose "Bad" [.single (dependentProc "doFoo" "getBar" "foo" (.str "bar"))] none)
        [] false []).1.log = [] :=
  c4_invalid_config_fails_every_run
    (compose "Bad" [.single (dependentProc "doFoo" "getBar" "foo" (.str "bar"))] none)
    [] false [] true (by decide)


/-- The left fold of `getMostSevereProcessorError` keeps the first element
attaining the maximum status code: it splits `m :: l` into a strictly
smaller prefix and a no-larger suffix around its result. -/
theorem foldl_mostSevere_first_max (l : List Ex) (m : Ex) :
    ∃ r, l.foldl (fun mostSevere ex =>
        match mostSevere with
        | none => some ex
        | some mm =>
            if ex.responseInfo.statusCode > mm.responseInfo.statusCode then some ex else some mm)
      (some m) = some r ∧
      ∃ l₁ l₂, m :: l = l₁ ++ r :: l₂ ∧
        (∀ x ∈ l₁, x.responseInfo.statusCode < r.responseInfo.statusCode) ∧
        (∀ x ∈ l₂, x.responseInfo.statusCode ≤ r.responseInfo.statusCode) := by
  induction l generalizing m with
  | nil => exact ⟨m, rfl, [], [], rfl, by simp, by simp⟩
  | cons x t ih =>
      by_cases hx : x.responseInfo.statusCode > m.responseInfo.statusCode
      · obtain ⟨r, hr, l₁, l₂, hsplit, h₁, h₂⟩ := ih x
        refine ⟨r, ?_, ?_⟩
        · show t.foldl _ (if x.responseInfo.statusCode > m.responseInfo.statusCode
              then some x else some m) = some r
          rw [if_pos hx]
          exact hr
        · cases l₁ with
          | nil =>
              simp only [List.nil_append] at hsplit
              injection hsplit with hy ht
              refine ⟨[m], t, ?_, ?_, ?_⟩
              · rw [hy, ht]
                rfl
              · intro z hz
                rcases List.mem_singleton.mp hz with rfl
                rw [← hy]
                exact hx
              · intro z hz
                exact h₂ z (ht ▸ hz)
          | cons y rest =>
              simp only [List.cons_append] at hsplit
              injection hsplit with hy ht
              refine ⟨m :: x :: rest, l₂, ?_, ?_, h₂⟩
              · rw [ht, hy]
                simp
              · intro z hz
                have hxr : x.responseInfo.statusCode < r.responseInfo.statusCode := by
                  rw [hy]
                  exact h₁ y (by simp)
                rcases List.mem_cons.mp hz with rfl | hz
                · omega
                · rcases List.mem_cons.mp hz with rfl | hz
                  · exact hxr
                  · exact h₁ z (by simp [hz])
      · obtain ⟨r, hr, l₁, l₂, hsplit, h₁, h₂⟩ := ih m
        refine ⟨r, ?_, ?_⟩
        · show t.foldl _ (if x.responseInfo.statusCode > m.responseInfo.statusCode
              then some x else some m) = some r
          rw [if_neg hx]
          exact hr
        · cases l₁ with
          | nil =>
              simp only [List.nil_append] at hsplit
              injection hsplit with hy ht
              refine ⟨[], x :: t, by rw [hy]; rfl, by simp, ?_⟩
              intro z hz
              rcases List.mem_cons.mp hz with rfl | hz
              · rw [← hy]
                omega
              · rw [← hy]
                have := h₂ z (ht ▸ hz)
                rw [hy]
                exact this
          | cons y rest =>
              simp only [List.cons_append] at hsplit
              injection hsplit with hy ht
              refine ⟨m :: x :: rest, l₂, ?_, ?_, h₂⟩
              · rw [ht, hy]
                simp
              · intro z hz
                have hmr : m.responseInfo.statusCode < r.responseInfo.statusCode := by
                  rw [hy]
                  exact h₁ y (by simp)
                rcases List.mem_cons.mp hz with rfl | hz
                · exact hmr
                · rcases List.mem_cons.mp hz with rfl | hz
                  · omega
                  · exact h₁ z (by simp [hz])

/-- **C5**: `getMostSevereProcessorError` returns `none` exactly when no
wrapped failure's originating error is a status-code-carrying
`ProcessorError`; otherwise it returns the wrapped `ProcessorError` with
the numerically highest `responseInfo.statusCode`, ties broken in favor of
the first-encountered in list order (everything before the result is
strictly smaller, everything after is no larger). -/
theorem c5_mostSevere_highest_status_first_tie (errorsFromProcessors : List ErrInfo) :
    (getMostSevereProcessorError errorsFromProcessors = none ↔
      procExes errorsFromProcessors = []) ∧
    (∀ e, getMostSevereProcessorError errorsFromProcessors = some e →
      ∃ l₁ l₂, procExes errorsFromProcessors = l₁ ++ e :: l₂ ∧
        (∀ x ∈ l₁, x.responseInfo.statusCode < e.responseInfo.statusCode) ∧
        (∀ x ∈ l₂, x.responseInfo.statusCode ≤ e.responseInfo.statusCode)) := by
  unfold getMostSevereProcessorError
  by_cases hemp : errorsFromProcessors.isEmpty
  · have : errorsFromProcessors = [] := List.isEmpty_iff.mp hemp
    subst this
    simp [procExes]
  · simp only [hemp, Bool.false_eq_true, if_false, ite_false]
    have hpe : (errorsFromProcessors.map (fun errInfo => errInfo.ex)).filter
        (fun ex => ex.isProcessorError) = procExes errorsFromProcessors := rfl
    rw [hpe]
    cases hl : procExes errorsFromProcessors with
    | nil => simp
    | cons e₀ rest =>
        have hstep : (e₀ :: rest).foldl (fun mostSevere ex =>
            match mostSevere with
            | none => some ex
            | some mm =>
                if ex.responseInfo.statusCode > mm.responseInfo.statusCode
                then some ex else some mm) none =
          rest.foldl (fun mostSevere ex =>
            match mostSevere with
            | none => some ex
            | some mm =>
                if ex.responseInfo.statusCode > mm.responseInfo.statusCode
                then some ex else some mm) (some e₀) := rfl
        rw [hstep]
        obtain ⟨r, hr, l₁, l₂, hsplit, h₁, h₂⟩ := foldl_mostSevere_first_max rest e₀
        rw [hr]
        constructor
        · simp
        · intro e he
          injection he with he
          subst he
          exact ⟨l₁, l₂, hsplit, h₁, h₂⟩

/-- Witness for C5: two wrapped status-bearing failures with codes 400 and
550 — in either declaration order the most-severe lookup picks the 550
one. -/
theorem c5_mostSevere_witness :
    (∃ l₁ l₂, procExes [⟨"a", "bad request", statusEx "bad request" 400⟩,
        ⟨"b", "upstream", statusEx "upstream" 550⟩] = l₁ ++ statusEx "upstream" 550 :: l₂ ∧
      (∀ x ∈ l₁, x.responseInfo.statusCode < (statusEx "upstream" 550).responseInfo.statusCode) ∧
      (∀ x ∈ l₂, x.responseInfo.statusCode ≤ (statusEx "upstream" 550).responseInfo.statusCode)) ∧
    (∃ l₁ l₂, procExes [⟨"b", "upstream", statusEx "upstream" 550⟩,
        ⟨"a", "bad request", statusEx "bad request" 400⟩] = l₁ ++ statusEx "upstream" 550 :: l₂ ∧
      (∀ x ∈ l₁, x.responseInfo.statusCode < (statusEx "upstream" 550).responseInfo.statusCode) ∧
      (∀ x ∈ l₂, x.responseInfo.statusCode ≤ (statusEx "upstream" 550).responseInfo.statusCode)) :=
  ⟨(c5_mostSevere_highest_status_first_tie _).2 (statusEx "upstream" 550) rfl,
   (c5_mostSevere_highest_status_first_tie _).2 (statusEx "upstream" 550) rfl⟩

/-- Any error the step loop raises is the `ProcessError` thrown by
`checkErrors`: it carries the process name, the original starting context
and the accumulated (non-empty) error list of the state at the throw, and
it only happens with continue-on-error disabled. -/
theorem runSteps_error_shape (pn : String) (sc : Obj) (co : Bool)
    (l : List (Step × List GEvent)) (s : RunState) (e : RunError) (s' : RunState)
    (h : runSteps pn sc co l s = (some e, s')) :
    e = .processError pn sc s'.errors ∧ s'.errors ≠ [] ∧ co = false := by
  induction l generalizing s with
  | nil =>
      unfold runSteps at h
      injection h with h1 h2
      exact absurd h1 (by simp)
  | cons hd tl ih =>
      obtain ⟨st, σ⟩ := hd
      unfold runSteps at h
      cases hc : checkErrors pn sc co s.errors with
      | some e' =>
          rw [hc] at h
          injection h with h1 h2
          injection h1 with h1
          subst h1
          subst h2
          unfold checkErrors at hc
          by_cases hb : s.errors.length > 0 ∧ co = false
          · rw [if_pos (by simp [hb.1, hb.2])] at hc
            injection hc with hc
            subst hc
            exact ⟨rfl, by
              intro hnil
              rw [hnil] at hb
              simp at hb, hb.2⟩
          · exfalso
            rw [if_neg] at hc
            · exact absurd hc (by simp)
            · simp only [Bool.and_eq_true, decide_eq_true_eq, Bool.not_eq_true']
              intro hcon
              rcases hcon with ⟨h1', h2'⟩
              exact hb ⟨by omega, by revert h2'; cases co <;> simp⟩
      | none =>
          rw [hc] at h
          exact ih _ h

/-- For a facade with no configuration errors, any run failure is a
`ProcessError` carrying the original starting context and the trace's
non-empty accumulated error list (never an invalid-configuration error),
and only with continue-on-error disabled. -/
theorem startRun_error_shape (pn : String) (processors : List Step) (sc : Obj)
    (co : Bool) (scheds : List (List GEvent)) (e : RunError) (s' : RunState)
    (h : startRun pn [] processors sc co scheds = (.error e, s')) :
    e = .processError pn sc s'.errors ∧ s'.errors ≠ [] ∧ co = false := by
  unfold startRun at h
  rw [if_neg (by simp)] at h
  cases hrs : runSteps pn sc co (processors.zip (padScheds scheds processors.length))
      (initState pn sc) with
  | mk r s1 =>
      rw [hrs] at h
      cases r with
      | some e1 =>
          injection h with h1 h2
          injection h1 with h1
          subst h1
          subst h2
          exact runSteps_error_shape pn sc co _ _ _ _ hrs
      | none =>
          simp only at h
          cases hc : checkErrors pn sc co (finalizeCookies s1).errors with
          | some e2 =>
              rw [hc] at h
              injection h with h1 h2
              injection h1 with h1
              subst h1
              subst h2
              unfold checkErrors at hc
              by_cases hb : (finalizeCookies s1).errors.length > 0 ∧ co = false
              · rw [if_pos (by simp [hb.1, hb.2])] at hc
                injection hc with hc
                subst hc
                refine ⟨rfl, ?_, hb.2⟩
                intro hnil
                rw [hnil] at hb
                simp at hb
              · exfalso
                rw [if_neg] at hc
                · exact absurd hc (by simp)
                · simp only [Bool.and_eq_true, decide_eq_true_eq, Bool.not_eq_true']
                  intro hcon
                  rcases hcon with ⟨h1', h2'⟩
                  exact hb ⟨by omega, by revert h2'; cases co <;> simp⟩
          | none =>
              rw [hc] at h
              injection h with h1 h2
              exact absurd h1 (by simp)

/-- **C9** (counterexample): compose a valid two-step pipeline
`[getBar, doFoo]` where `doFoo` declares prerequisite `getBar`, then
`deregister("getBar")`.  Contrary to the claim, no prerequisite
re-validation happens: the facade carries no `ConfigurationError` for the
now-missing prerequisite, and the next run attempt succeeds (with `doFoo`
executed) instead of failing with the configuration-invalid error. -/
theorem c9_deregister_counterexample :
    (deregister (compose "Dereg" [.single (trivialProc "getBar"),
        .single (dependentProc "doFoo" "getBar" "foo" (.str "bar"))] none)
      "getBar").invalidConfigs = [] ∧
    ((deregister (compose "Dereg" [.single (trivialProc "getBar"),
        .single (dependentProc "doFoo" "getBar" "foo" (.str "bar"))] none)
      "getBar").start [] false []).1 =
      .ok ⟨[("foo", .str "bar")], [], [("processName", .str "Dereg"), ("errors", .arr)]⟩ ∧
    LogEvent.processInvoked "doFoo" ∈
      ((deregister (compose "Dereg" [.single (trivialProc "getBar"),
          .single (dependentProc "doFoo" "getBar" "foo" (.str "bar"))] none)
        "getBar").start [] false []).2.log :=
  ⟨rfl, rfl, by decide⟩

/-- Variant of `startRun_error_shape` phrased on the first component. -/
theorem startRun_error_shape_fst (pn : String) (processors : List Step) (sc : Obj)
    (co : Bool) (scheds : List (List GEvent)) (e : RunError)
    (h : (startRun pn [] processors sc co scheds).1 = .error e) :
    e = .processError pn sc (startRun pn [] processors sc co scheds).2.errors ∧
      (startRun pn [] processors sc co scheds).2.errors ≠ [] ∧ co = false := by
  cases hout : startRun pn [] processors sc co scheds with
  | mk r s' =>
      rw [hout] at h
      simp only at h
      subst h
      exact startRun_error_shape pn processors sc co scheds e s' hout

/-- **C9** (amended): prerequisite validation runs at composition time, and
registration validates the newly registered processor against everything
currently loaded; deregistration performs NO re-validation — it leaves
`invalidConfigs` unchanged (the source filters entries on a nonexistent
`name` field), so removing a processor that a remaining processor declares
as a prerequisite records no `ConfigurationError`, and subsequent run
attempts never fail with the configuration-invalid error (any failure is an
ordinary runtime `ProcessError`). -/
theorem c9_amended_validation_times (q p : Processor) (pn : String) (copts : Option Obj)
    (hqpre : q.prerequisites = []) (hqp : p.prerequisites = [q.name])
    (hne : p.name ≠ q.name) :
    (compose pn [.single q, .single p] copts).invalidConfigs = [] ∧
    (deregister (compose pn [.single q, .single p] copts) q.name).invalidConfigs = [] ∧
    (deregister (compose pn [.single q, .single p] copts) q.name).processors = [.single p] ∧
    (∀ (f : Facade) (nm : String), (deregister f nm).invalidConfigs = f.invalidConfigs) ∧
    (∀ (f : Facade) (p' : Processor), (register f p').invalidConfigs =
        f.invalidConfigs ++ validatePrerequisites p' (flattenSteps f.processors)) ∧
    (∀ (sc : Obj) (co : Bool) (scheds : List (List GEvent)) (e : RunError),
      ((deregister (compose pn [.single q, .single p] copts) q.name).start sc co scheds).1 =
          .error e →
        e = .processError pn sc
          (((deregister (compose pn [.single q, .single p] copts) q.name).start
            sc co scheds).2.errors)) := by
  have hcfg : (compose pn [.single q, .single p] copts).invalidConfigs = [] := by
    simp [compose, validatePipeline, validatePipelineGo, validatePrerequisites, hqpre, hqp]
  refine ⟨hcfg, hcfg, ?_, ?_, ?_, ?_⟩
  · unfold deregister removeProcessorStep
    simp [compose, List.filterMap, hne]
  · intro f nm
    rfl
  · intro f p'
    unfold register
    by_cases hb : f.processors.any (fun st =>
        match st with
        | .single q' => q'.name = p'.name
        | .par _ => false)
    · rw [if_pos hb]
    · rw [if_neg hb]
  · intro sc co scheds e he
    unfold Facade.start at he ⊢
    rw [show (deregister (compose pn [.single q, .single p] copts) q.name).invalidConfigs
        = [] from hcfg] at he ⊢
    exact (startRun_error_shape_fst _ _ _ _ _ _ he).1

/-- The source's `loaded.some(p => p.name === prereq)` check agrees with
membership of `prereq` among the loaded names. -/
theorem any_name_eq_contains (loaded : List Processor) (prereq : String) :
    loaded.any (fun q => q.name = prereq) =
      (loaded.map (fun p => p.name)).contains prereq := by
  induction loaded with
  | nil => rfl
  | cons a t ih =>
      simp only [List.any_cons, List.map_cons, List.contains_cons, ih]
      by_cases h : a.name = prereq
      · simp [h]
      · simp [h, Ne.symm h]

/-- The filter inside `validatePrerequisites` computes exactly the
spec-side missing-prerequisite list. -/
theorem missing_eq (p : Processor) (loaded : List Processor) :
    p.prerequisites.filter (fun prereq => !(loaded.any (fun q => q.name = prereq))) =
      missingOf (p, loaded.map (fun q => q.name)) := by
  unfold missingOf
  apply List.filter_congr
  intro a _
  rw [any_name_eq_contains]

/-- `validatePrerequisites` is the list of the (at most one) spec-side
configuration error of the processor. -/
theorem validatePrerequisites_eq_spec (p : Processor) (loaded : List Processor) :
    validatePrerequisites p loaded =
      (if (missingOf (p, loaded.map (fun q => q.name))).isEmpty then none
       else some (⟨p.name, reasonString (missingOf (p, loaded.map (fun q => q.name)))⟩ :
         ConfigErr)).toList := by
  unfold validatePrerequisites
  rw [missing_eq]
  by_cases h : (missingOf (p, loaded.map (fun q => q.name))).isEmpty
  · rw [if_pos h, if_pos h]
    rfl
  · rw [if_neg h, if_neg h]
    rfl

/-- Accumulating `validatePrerequisites` over the members of a parallel
group is a `filterMap` of the per-member spec-side errors. -/
theorem foldl_validate_eq_filterMap (ps : List Processor) (loaded : List Processor)
    (acc : List ConfigErr) :
    ps.foldl (fun a p => a ++ validatePrerequisites p loaded) acc =
      acc ++ ps.filterMap (fun p =>
        if (missingOf (p, loaded.map (fun q => q.name))).isEmpty then none
        else some ⟨p.name, reasonString (missingOf (p, loaded.map (fun q => q.name)))⟩) := by
  induction ps generalizing acc with
  | nil => simp
  | cons a t ih =>
      show (t.foldl (fun a p => a ++ validatePrerequisites p loaded)
          (acc ++ validatePrerequisites a loaded)) = _
      rw [ih, validatePrerequisites_eq_spec a loaded, List.filterMap_cons]
      by_cases h : (missingOf (a, loaded.map (fun q => q.name))).isEmpty
      · simp only [if_pos h]
        simp
      · simp only [if_neg h]
        simp

/-- The translated `validatePipeline` walk equals the spec's description:
validate each processor against the names strictly earlier in the
flattened step sequence, where members of one parallel group do not count
as earlier than each other. -/
theorem validatePipelineGo_eq_spec (steps : List Step) (loaded : List Processor) :
    validatePipelineGo steps loaded =
      (flattenWithEarlier steps (loaded.map (fun p => p.name))).filterMap (fun pe =>
        if (missingOf pe).isEmpty then none
        else some ⟨pe.1.name, reasonString (missingOf pe)⟩) := by
  induction steps generalizing loaded with
  | nil => rfl
  | cons st rest ih =>
      cases st with
      | single p =>
          show validatePrerequisites p loaded ++ validatePipelineGo rest (loaded ++ [p]) = _
          rw [validatePrerequisites_eq_spec, ih]
          show _ = ((p, loaded.map (fun q => q.name)) ::
            flattenWithEarlier rest (loaded.map (fun q => q.name) ++ [p.name])).filterMap _
          rw [List.filterMap_cons]
          have hmap : (loaded ++ [p]).map (fun q => q.name) =
              loaded.map (fun q => q.name) ++ [p.name] := by simp
          rw [hmap]
          by_cases h : (missingOf (p, loaded.map (fun q => q.name))).isEmpty
          · rw [if_pos h]
            rfl
          · rw [if_neg h]
            rfl
      | par ps =>
          show (ps.foldl (fun acc p => acc ++ validatePrerequisites p loaded) []) ++
              validatePipelineGo rest (loaded ++ ps) = _
          rw [foldl_validate_eq_filterMap, ih]
          show _ = ((ps.map (fun p => (p, loaded.map (fun q => q.name)))) ++
            flattenWithEarlier rest
              (loaded.map (fun q => q.name) ++ ps.map (fun p => p.name))).filterMap _
          rw [List.filterMap_append]
          have hmap : (loaded ++ ps).map (fun q => q.name) =
              loaded.map (fun q => q.name) ++ ps.map (fun p => p.name) := by simp
          rw [hmap]
          congr 1
          rw [List.filterMap_map]
          rfl

/-- **C3**: composing a facade records exactly the spec-demanded
configuration errors — one entry per processor with prerequisites not
found strictly earlier in the flattened step sequence (members of the same
parallel group not counting as earlier than each other), naming the
declaring processor and joining every missing prerequisite name into the
reason.  Zero missing prerequisites produce no entry; the facade's error
list is empty exactly when every processor's missing list is empty; and a
non-empty error list makes every run attempt fail with the
configuration-invalid error carrying those errors. -/
theorem c3_composition_prerequisite_validation (pn : String) (steps : List Step)
    (copts : Option Obj) :
    (compose pn steps copts).invalidConfigs = specConfigErrs steps ∧
    (∀ p earlier, (p, earlier) ∈ flattenWithEarlier steps [] →
      missingOf (p, earlier) ≠ [] →
      (⟨p.name, reasonString (missingOf (p, earlier))⟩ : ConfigErr) ∈
        (compose pn steps copts).invalidConfigs) ∧
    ((compose pn steps copts).invalidConfigs = [] ↔
      ∀ pe ∈ flattenWithEarlier steps [], missingOf pe = []) ∧
    ((compose pn steps copts).invalidConfigs ≠ [] →
      ∀ sc co scheds, ((compose pn steps copts).start sc co scheds).1 =
        .error (.invalidProcess pn (specConfigErrs steps))) := by
  have hmain : (compose pn steps copts).invalidConfigs = specConfigErrs steps := by
    show validatePipeline steps = specConfigErrs steps
    unfold validatePipeline specConfigErrs
    have := validatePipelineGo_eq_spec steps []
    simpa using this
  refine ⟨hmain, ?_, ?_, ?_⟩
  · intro p earlier hmem hmiss
    rw [hmain]
    unfold specConfigErrs
    rw [List.mem_filterMap]
    refine ⟨(p, earlier), hmem, ?_⟩
    rw [if_neg (by simpa using hmiss)]
  · rw [hmain]
    unfold specConfigErrs
    rw [List.filterMap_eq_nil_iff]
    constructor
    · intro h pe hpe
      have := h pe hpe
      by_cases hme : (missingOf pe).isEmpty
      · exact List.isEmpty_iff.mp hme
      · rw [if_neg hme] at this
        exact absurd this (by simp)
    · intro h pe hpe
      rw [if_pos (by simp [h pe hpe])]
  · intro hne sc co scheds
    have := startRun_invalid pn (compose pn steps copts).invalidConfigs
      (compose pn steps copts).processors sc co scheds hne
    show (startRun pn (compose pn steps copts).invalidConfigs
      (compose pn steps copts).processors sc co scheds).1 = _
    rw [this, hmain]

/-- Witness for C3: one missing prerequisite is diagnosed with its name,
zero missing prerequisites produce no error, two missing prerequisites are
both named in the reason, and a facade with the one-missing pipeline fails
its run attempt with the configuration-invalid error. -/
theorem c3_composition_witness :
    (⟨"doFoo", reasonString ["getBar"]⟩ : ConfigErr) ∈
      (compose "W1" [.single (dependentProc "doFoo" "getBar" "foo" (.str "bar"))]
        none).invalidConfigs ∧
    (compose "W0" [.single (trivialProc "getFoo")] none).invalidConfigs = [] ∧
    (⟨"multi", reasonString ["getBar", "getBaz"]⟩ : ConfigErr) ∈
      (compose "W2" [.single multiPrereqProc] none).invalidConfigs ∧
    ((compose "W1" [.single (dependentProc "doFoo" "getBar" "foo" (.str "bar"))]
        none).start [] false []).1 =
      .error (.invalidProcess "W1"
        (specConfigErrs [.single (dependentProc "doFoo" "getBar" "foo" (.str "bar"))])) := by
  refine ⟨?_, ?_, ?_, ?_⟩
  · exact (c3_composition_prerequisite_validation "W1"
      [.single (dependentProc "doFoo" "getBar" "foo" (.str "bar"))] none).2.1
      (dependentProc "doFoo" "getBar" "foo" (.str "bar")) []
      (List.mem_singleton.mpr rfl) (by decide)
  · exact (c3_composition_prerequisite_validation "W0"
      [.single (trivialProc "getFoo")] none).1.trans rfl
  · exact (c3_composition_prerequisite_validation "W2"
      [.single multiPrereqProc] none).2.1
      multiPrereqProc []
      (List.mem_singleton.mpr rfl) (by decide)
  · exact (c3_composition_prerequisite_validation "W1"
      [.single (dependentProc "doFoo" "getBar" "foo" (.str "bar"))] none).2.2.2
      (by decide) [] false []

/-- `ensureCookies` only changes the store and appends at most one
cookie-reset log line. -/
theorem ensureCookies_log (n : String) (s : RunState) :
    ∃ nl, (ensureCookies n s).log = s.log ++ nl ∧
      (∀ ev ∈ nl, ev = LogEvent.cookieResetError n) ∧
      (ensureCookies n s).errors = s.errors ∧
      (ensureCookies n s).processorsRun = s.processorsRun := by
  unfold ensureCookies
  by_cases h : cookiesValid (s.store.get s.dataRef)
  · rw [if_pos h]
    exact ⟨[], by simp, by simp, rfl, rfl⟩
  · rw [if_neg h]
    exact ⟨[LogEvent.cookieResetError n], rfl, by simp, rfl, rfl⟩

/-- The merge half of `aggregateResult` leaves log, errors untouched and
appends the one `ok` record. -/
theorem aggregateMerge_proj (s : RunState) (d0 c0 : Nat) (n : String)
    (res : Option PartialResult) :
    (aggregateMerge s d0 c0 n res).log = s.log ∧
    (aggregateMerge s d0 c0 n res).errors = s.errors ∧
    (aggregateMerge s d0 c0 n res).processorsRun = s.processorsRun ++ [⟨n, true⟩] := by
  cases res <;> exact ⟨rfl, rfl, rfl⟩

/-- `aggregateResult` records one `ok` entry, touches no errors, and logs
at most a cookie reset for the settling processor. -/
theorem aggregateResult_extends (s : RunState) (d0 c0 : Nat) (n : String)
    (res : Option PartialResult) :
    ∃ nl, (aggregateResult s d0 c0 n res).log = s.log ++ nl ∧
      (∀ ev ∈ nl, ev = LogEvent.cookieResetError n) ∧
      (aggregateResult s d0 c0 n res).errors = s.errors ∧
      (aggregateResult s d0 c0 n res).processorsRun =
        s.processorsRun ++ [⟨n, true⟩] := by
  obtain ⟨hl, he, hr⟩ := aggregateMerge_proj s d0 c0 n res
  obtain ⟨nl, hl2, hnl, he2, hr2⟩ := ensureCookies_log n (aggregateMerge s d0 c0 n res)
  exact ⟨nl, by rw [show (aggregateResult s d0 c0 n res) =
      ensureCookies n (aggregateMerge s d0 c0 n res) from rfl, hl2, hl],
    hnl,
    by rw [show (aggregateResult s d0 c0 n res) =
      ensureCookies n (aggregateMerge s d0 c0 n res) from rfl, he2, he],
    by rw [show (aggregateResult s d0 c0 n res) =
      ensureCookies n (aggregateMerge s d0 c0 n res) from rfl, hr2, hr]⟩

/-- `handleProcessorError` records one failure entry under the settling
processor's name and logs at most a cookie reset plus the processor-error
line. -/
theorem handleProcessorError_extends (s : RunState) (n : String) (ex : Ex) :
    ∃ nl, (handleProcessorError s n ex).log = s.log ++ nl ∧
      (∀ ev ∈ nl, ev = LogEvent.cookieResetError n ∨
        ev = LogEvent.processorErrorLogged n) ∧
      (handleProcessorError s n ex).errors =
        s.errors ++ [⟨n, ex.message, { ex with doNotLog := true }⟩] ∧
      (handleProcessorError s n ex).processorsRun = s.processorsRun ++ [⟨n, false⟩] := by
  obtain ⟨nl, hl2, hnl, he2, hr2⟩ := ensureCookies_log n (handleRecord s n ex)
  unfold handleProcessorError
  by_cases hlog : !(ex.doNotLog || ex.isEpiError)
  · rw [if_pos hlog]
    refine ⟨nl ++ [LogEvent.processorErrorLogged n], ?_, ?_, ?_, ?_⟩
    · show (ensureCookies n (handleRecord s n ex)).log ++ _ = _
      rw [hl2]
      show (handleRecord s n ex).log ++ nl ++ _ = _
      rw [show (handleRecord s n ex).log = s.log from rfl, List.append_assoc]
    · intro ev hev
      rcases List.mem_append.mp hev with h | h
      · exact Or.inl (hnl ev h)
      · rcases List.mem_singleton.mp h with rfl
        exact Or.inr rfl
    · show (ensureCookies n (handleRecord s n ex)).errors = _
      rw [he2]
      rfl
    · show (ensureCookies n (handleRecord s n ex)).processorsRun = _
      rw [hr2]
      rfl
  · rw [if_neg hlog]
    refine ⟨nl, ?_, ?_, ?_, ?_⟩
    · rw [hl2]
      rfl
    · exact fun ev hev => Or.inl (hnl ev hev)
    · rw [he2]
      rfl
    · rw [hr2]
      rfl


/-- One schedule event only adds log lines, errors and run records that
belong to members of the group. -/
theorem execEvent_extends (mrs : List MemberRun) (d0 c0 : Nat) (s : RunState)
    (e : GEvent) :
    ∃ nl ne nr,
      (execEvent mrs d0 c0 s e).log = s.log ++ nl ∧
      (execEvent mrs d0 c0 s e).errors = s.errors ++ ne ∧
      (execEvent mrs d0 c0 s e).processorsRun = s.processorsRun ++ nr ∧
      (∀ ev ∈ nl, ∃ mr ∈ mrs, ev = LogEvent.cookieResetError mr.proc.name ∨
        ev = LogEvent.processorErrorLogged mr.proc.name) ∧
      (∀ er ∈ ne, ∃ mr ∈ mrs, er.occurredIn = mr.proc.name) ∧
      (∀ pr ∈ nr, ∃ mr ∈ mrs, pr.name = mr.proc.name) := by
  cases e with
  | writes i =>
      refine ⟨[], [], [], ?_, ?_, ?_, by simp, by simp, by simp⟩ <;>
        cases h : mrs[i]? <;> simp [execEvent, h]
  | settle i =>
      cases h : mrs[i]? with
      | none =>
          refine ⟨[], [], [], ?_, ?_, ?_, by simp, by simp, by simp⟩ <;>
            simp [execEvent, h]
      | some mr =>
          have hmem : mr ∈ mrs := by
            obtain ⟨hlt, hget⟩ := List.getElem?_eq_some.mp h
            exact hget ▸ List.getElem_mem hlt
          simp only [execEvent, List.get?_eq_getElem?, h]
          unfold execSettle
          by_cases hc : mr.cond
          · rw [if_neg (by simp [hc])]
            cases hres : mr.res with
            | ok o =>
                obtain ⟨nl, hl, hnl, he, hr⟩ :=
                  aggregateResult_extends s d0 c0 mr.proc.name o.result
                refine ⟨nl, [], [⟨mr.proc.name, true⟩], hl, by simpa using he, hr,
                  ?_, by simp, ?_⟩
                · exact fun ev hev => ⟨mr, hmem, Or.inl (hnl ev hev)⟩
                · intro pr hpr
                  rcases List.mem_singleton.mp hpr with rfl
                  exact ⟨mr, hmem, rfl⟩
            | throws ex =>
                obtain ⟨nl, hl, hnl, he, hr⟩ :=
                  handleProcessorError_extends s mr.proc.name ex
                refine ⟨nl, [⟨mr.proc.name, ex.message, { ex with doNotLog := true }⟩],
                  [⟨mr.proc.name, false⟩], hl, he, hr, ?_, ?_, ?_⟩
                · exact fun ev hev => ⟨mr, hmem, hnl ev hev⟩
                · intro er her
                  rcases List.mem_singleton.mp her with rfl
                  exact ⟨mr, hmem, rfl⟩
                · intro pr hpr
                  rcases List.mem_singleton.mp hpr with rfl
                  exact ⟨mr, hmem, rfl⟩
          · rw [if_pos (by simp [hc])]
            obtain ⟨nl, hl, hnl, he, hr⟩ := aggregateResult_extends s d0 c0 mr.proc.name
              (some ⟨some .capturedData, some .capturedCtx⟩)
            refine ⟨nl, [], [⟨mr.proc.name, true⟩], hl, by simpa using he, hr,
              ?_, by simp, ?_⟩
            · exact fun ev hev => ⟨mr, hmem, Or.inl (hnl ev hev)⟩
            · intro pr hpr
              rcases List.mem_singleton.mp hpr with rfl
              exact ⟨mr, hmem, rfl⟩

/-- The whole schedule fold only adds log lines, errors and run records
belonging to members of the group. -/
theorem foldl_execEvent_extends (sched : List GEvent) (mrs : List MemberRun)
    (d0 c0 : Nat) (s : RunState) :
    ∃ nl ne nr,
      (sched.foldl (fun acc e => execEvent mrs d0 c0 acc e) s).log = s.log ++ nl ∧
      (sched.foldl (fun acc e => execEvent mrs d0 c0 acc e) s).errors = s.errors ++ ne ∧
      (sched.foldl (fun acc e => execEvent mrs d0 c0 acc e) s).processorsRun =
        s.processorsRun ++ nr ∧
      (∀ ev ∈ nl, ∃ mr ∈ mrs, ev = LogEvent.cookieResetError mr.proc.name ∨
        ev = LogEvent.processorErrorLogged mr.proc.name) ∧
      (∀ er ∈ ne, ∃ mr ∈ mrs, er.occurredIn = mr.proc.name) ∧
      (∀ pr ∈ nr, ∃ mr ∈ mrs, pr.name = mr.proc.name) := by
  induction sched generalizing s with
  | nil => exact ⟨[], [], [], by simp, by simp, by simp, by simp, by simp, by simp⟩
  | cons e t ih =>
      obtain ⟨nl1, ne1, nr1, hl1, he1, hr1, p1, q1, r1⟩ := execEvent_extends mrs d0 c0 s e
      obtain ⟨nl2, ne2, nr2, hl2, he2, hr2, p2, q2, r2⟩ := ih (execEvent mrs d0 c0 s e)
      refine ⟨nl1 ++ nl2, ne1 ++ ne2, nr1 ++ nr2, ?_, ?_, ?_, ?_, ?_, ?_⟩
      · show (t.foldl _ (execEvent mrs d0 c0 s e)).log = _
        rw [hl2, hl1, List.append_assoc]
      · show (t.foldl _ (execEvent mrs d0 c0 s e)).errors = _
        rw [he2, he1, List.append_assoc]
      · show (t.foldl _ (execEvent mrs d0 c0 s e)).processorsRun = _
        rw [hr2, hr1, List.append_assoc]
      · intro ev hev
        rcases List.mem_append.mp hev with h | h
        · exact p1 ev h
        · exact p2 ev h
      · intro er her
        rcases List.mem_append.mp her with h | h
        · exact q1 er h
        · exact q2 er h
      · intro pr hpr
        rcases List.mem_append.mp hpr with h | h
        · exact r1 pr h
        · exact r2 pr h

/-- Membership in an accumulated append-fold. -/
theorem mem_foldl_append {α β : Type} (g : α → List β) (ps : List α) (acc : List β)
    (b : β) :
    b ∈ ps.foldl (fun a p => a ++ g p) acc ↔ b ∈ acc ∨ ∃ p ∈ ps, b ∈ g p := by
  induction ps generalizing acc with
  | nil => simp
  | cons a t ih =>
      rw [show (a :: t).foldl (fun a p => a ++ g p) acc =
        t.foldl (fun a p => a ++ g p) (acc ++ g a) from rfl, ih]
      simp [List.mem_append, or_assoc]

/-- The prerequisite warnings of a group: one per member and failed
prerequisite. -/
theorem mem_warningsOf (ps : List Processor) (runs : List ProcRun) (ev : LogEvent) :
    ev ∈ warningsOf ps runs ↔
      ∃ p ∈ ps, ∃ q ∈ p.prerequisites, prereqFailed runs q = true ∧
        ev = LogEvent.prereqSkipWarning p.name q := by
  unfold warningsOf
  rw [mem_foldl_append]
  simp only [List.mem_map, List.mem_filter, List.not_mem_nil, false_or]
  constructor
  · rintro ⟨p, hp, a, ⟨ha, haf⟩, hev⟩
    exact ⟨p, hp, a, ha, haf, hev.symm⟩
  · rintro ⟨p, hp, q, hq, hqf, hev⟩
    exact ⟨p, hp, q, ⟨hq, hqf⟩, hev.symm⟩


/-- **C7**: a step member `P` one of whose prerequisites already ran and
failed in this invocation is skipped before execution: a warning is logged
for the member and failed prerequisite, `P`'s `process` (and `runIf`) is
never invoked, `P` contributes no error entry and no `processorsRun`
record (it is simply absent from results, not reported as failed), while
members of the same step without failed prerequisites still execute
(their `process` is invoked when their `runIf` passes). -/
theorem c7_failed_prerequisite_skips (ps : List Processor) (sched : List GEvent)
    (s : RunState) (P : Processor) (hP : P ∈ ps)
    (hfail : hasFailedPrereq s.processorsRun P = true)
    (hnodup : (ps.map (fun p => p.name)).Nodup) :
    (∀ q ∈ P.prerequisites, prereqFailed s.processorsRun q = true →
      LogEvent.prereqSkipWarning P.name q ∈ (runGroup ps sched s).log) ∧
    (∃ nl, (runGroup ps sched s).log = s.log ++ nl ∧
      LogEvent.processInvoked P.name ∉ nl ∧
      LogEvent.runIfInvoked P.name ∉ nl) ∧
    (∃ ne, (runGroup ps sched s).errors = s.errors ++ ne ∧
      ∀ er ∈ ne, er.occurredIn ≠ P.name) ∧
    (∃ nr, (runGroup ps sched s).processorsRun = s.processorsRun ++ nr ∧
      ∀ pr ∈ nr, pr.name ≠ P.name) ∧
    (∀ p' ∈ ps, hasFailedPrereq s.processorsRun p' = false →
      p'.runIf (s.store.get s.dataRef) (s.store.get s.ctxRef) = true →
      LogEvent.processInvoked p'.name ∈ (runGroup ps sched s).log) := by
  have hTname : ∀ p' ∈ toExecOf ps s.processorsRun, p'.name ≠ P.name := by
    intro p' hp' hne
    have hmem := (List.mem_filter.mp hp').1
    have hflt := (List.mem_filter.mp hp').2
    have heq : p' = P := List.inj_on_of_nodup_map hnodup hmem hP hne
    subst heq
    rw [hfail] at hflt
    simp at hflt
  by_cases hemp : (toExecOf ps s.processorsRun).isEmpty
  · have hrg : runGroup ps sched s =
        { s with log := s.log ++ warningsOf ps s.processorsRun } := by
      simp only [runGroup]
      rw [if_pos hemp]
    refine ⟨?_, ?_, ?_, ?_, ?_⟩
    · intro q hq hqf
      rw [hrg]
      exact List.mem_append.mpr (Or.inr
        ((mem_warningsOf ps s.processorsRun _).mpr ⟨P, hP, q, hq, hqf, rfl⟩))
    · refine ⟨warningsOf ps s.processorsRun, by rw [hrg], ?_, ?_⟩
      · intro hmem
        obtain ⟨p, _, q, _, _, hev⟩ := (mem_warningsOf _ _ _).mp hmem
        exact absurd hev (by simp)
      · intro hmem
        obtain ⟨p, _, q, _, _, hev⟩ := (mem_warningsOf _ _ _).mp hmem
        exact absurd hev (by simp)
    · exact ⟨[], by rw [hrg]; simp, by simp⟩
    · exact ⟨[], by rw [hrg]; simp, by simp⟩
    · intro p' hp' hp'f _
      exfalso
      have hmem : p' ∈ toExecOf ps s.processorsRun :=
        List.mem_filter.mpr ⟨hp', by simp [hp'f]⟩
      rw [List.isEmpty_iff.mp hemp] at hmem
      simp at hmem
  · have hrg : runGroup ps sched s =
        sched.foldl (fun acc e => execEvent
          (mrsOf (toExecOf ps s.processorsRun) (s.store.get s.dataRef) (s.store.get s.ctxRef))
          s.dataRef s.ctxRef acc e)
          { s with log := (s.log ++ warningsOf ps s.processorsRun ++
              (toExecOf ps s.processorsRun).map (fun p => LogEvent.runIfInvoked p.name) ++
              ((mrsOf (toExecOf ps s.processorsRun) (s.store.get s.dataRef)
                  (s.store.get s.ctxRef)).filter (fun mr => mr.cond)).map
                (fun mr => LogEvent.processInvoked mr.proc.name)) } := by
      simp only [runGroup]
      rw [if_neg hemp]
    have hmrsname : ∀ mr ∈ mrsOf (toExecOf ps s.processorsRun) (s.store.get s.dataRef)
        (s.store.get s.ctxRef), mr.proc.name ≠ P.name := by
      intro mr hmr
      obtain ⟨p', hp', hpe⟩ := List.mem_map.mp hmr
      rw [← hpe]
      exact hTname p' hp'
    obtain ⟨nl, ne, nr, hl, he, hr, pnl, pne, pnr⟩ := foldl_execEvent_extends sched
      (mrsOf (toExecOf ps s.processorsRun) (s.store.get s.dataRef) (s.store.get s.ctxRef))
      s.dataRef s.ctxRef
      { s with log := (s.log ++ warningsOf ps s.processorsRun ++
          (toExecOf ps s.processorsRun).map (fun p => LogEvent.runIfInvoked p.name) ++
          ((mrsOf (toExecOf ps s.processorsRun) (s.store.get s.dataRef)
              (s.store.get s.ctxRef)).filter (fun mr => mr.cond)).map
            (fun mr => LogEvent.processInvoked mr.proc.name)) }
    refine ⟨?_, ?_, ?_, ?_, ?_⟩
    · intro q hq hqf
      rw [hrg, hl]
      refine List.mem_append.mpr (Or.inl ?_)
      show _ ∈ _ ++ _ ++ _ ++ _
      refine List.mem_append.mpr (Or.inl (List.mem_append.mpr (Or.inl
        (List.mem_append.mpr (Or.inr ?_)))))
      exact (mem_warningsOf ps s.processorsRun _).mpr ⟨P, hP, q, hq, hqf, rfl⟩
    · refine ⟨warningsOf ps s.processorsRun ++
        (toExecOf ps s.processorsRun).map (fun p => LogEvent.runIfInvoked p.name) ++
        ((mrsOf (toExecOf ps s.processorsRun) (s.store.get s.dataRef)
            (s.store.get s.ctxRef)).filter (fun mr => mr.cond)).map
          (fun mr => LogEvent.processInvoked mr.proc.name) ++ nl, ?_, ?_, ?_⟩
      · rw [hrg, hl]
        show (_ ++ _ ++ _ ++ _) ++ _ = _
        simp [List.append_assoc]
      · intro hmem
        rcases List.mem_append.mp hmem with hmem | hmem
        · rcases List.mem_append.mp hmem with hmem | hmem
          · rcases List.mem_append.mp hmem with hmem | hmem
            · obtain ⟨_, _, _, _, _, hev⟩ := (mem_warningsOf _ _ _).mp hmem
              exact absurd hev (by simp)
            · obtain ⟨p', _, hpe⟩ := List.mem_map.mp hmem
              exact absurd hpe (by simp)
          · obtain ⟨mr, hmr, hpe⟩ := List.mem_map.mp hmem
            have := hmrsname mr (List.mem_of_mem_filter hmr)
            injection hpe with hpe
            exact this hpe
        · obtain ⟨mr, hmr, hev⟩ := pnl _ hmem
          rcases hev with hev | hev <;> exact absurd hev (by simp)
      · intro hmem
        rcases List.mem_append.mp hmem with hmem | hmem
        · rcases List.mem_append.mp hmem with hmem | hmem
          · rcases List.mem_append.mp hmem with hmem | hmem
            · obtain ⟨_, _, _, _, _, hev⟩ := (mem_warningsOf _ _ _).mp hmem
              exact absurd hev (by simp)
            · obtain ⟨p', hp', hpe⟩ := List.mem_map.mp hmem
              have := hTname p' hp'
              injection hpe with hpe
              exact this hpe
          · obtain ⟨mr, hmr, hpe⟩ := List.mem_map.mp hmem
            exact absurd hpe (by simp)
        · obtain ⟨mr, hmr, hev⟩ := pnl _ hmem
          rcases hev with hev | hev <;> exact absurd hev (by simp)
    · refine ⟨ne, by rw [hrg, he], ?_⟩
      intro er her
      obtain ⟨mr, hmr, hoe⟩ := pne er her
      rw [hoe]
      exact hmrsname mr hmr
    · refine ⟨nr, by rw [hrg, hr], ?_⟩
      intro pr hpr
      obtain ⟨mr, hmr, hne2⟩ := pnr pr hpr
      rw [hne2]
      exact hmrsname mr hmr
    · intro p' hp' hp'f hrunif
      have hmemT : p' ∈ toExecOf ps s.processorsRun :=
        List.mem_filter.mpr ⟨hp', by simp [hp'f]⟩
      have hmr : MemberRun.mk p' (p'.runIf (s.store.get s.dataRef) (s.store.get s.ctxRef))
          (p'.process (s.store.get s.dataRef) (s.store.get s.ctxRef)) ∈
          mrsOf (toExecOf ps s.processorsRun) (s.store.get s.dataRef)
            (s.store.get s.ctxRef) :=
        List.mem_map.mpr ⟨p', hmemT, rfl⟩
      have hmrf : MemberRun.mk p' (p'.runIf (s.store.get s.dataRef) (s.store.get s.ctxRef))
          (p'.process (s.store.get s.dataRef) (s.store.get s.ctxRef)) ∈
          (mrsOf (toExecOf ps s.processorsRun) (s.store.get s.dataRef)
            (s.store.get s.ctxRef)).filter (fun mr => mr.cond) :=
        List.mem_filter.mpr ⟨hmr, by simpa using hrunif⟩
      rw [hrg, hl]
      refine List.mem_append.mpr (Or.inl ?_)
      show _ ∈ _ ++ _ ++ _ ++ _
      refine List.mem_append.mpr (Or.inr ?_)
      exact List.mem_map.mpr ⟨_, hmrf, rfl⟩

/-- Witness for C7: in a parallel step `[doFoo (requires boom), free]` run
after `boom` failed, `doFoo` is skipped with a warning and no trace, while
`free` still executes. -/
theorem c7_failed_prerequisite_witness :
    (∀ q ∈ (dependentProc "doFoo" "boom" "foo" (.str "bar")).prerequisites,
      prereqFailed afterBoomState.processorsRun q = true →
      LogEvent.prereqSkipWarning "doFoo" q ∈
        (runGroup [dependentProc "doFoo" "boom" "foo" (.str "bar"), writerProc "free" "y" (.num 2)]
          [.writes 0, .settle 0, .writes 1, .settle 1] afterBoomState).log) ∧
    (∃ nl, (runGroup [dependentProc "doFoo" "boom" "foo" (.str "bar"), writerProc "free" "y" (.num 2)]
          [.writes 0, .settle 0, .writes 1, .settle 1] afterBoomState).log =
        afterBoomState.log ++ nl ∧
      LogEvent.processInvoked "doFoo" ∉ nl ∧
      LogEvent.runIfInvoked "doFoo" ∉ nl) ∧
    (∃ ne, (runGroup [dependentProc "doFoo" "boom" "foo" (.str "bar"), writerProc "free" "y" (.num 2)]
          [.writes 0, .settle 0, .writes 1, .settle 1] afterBoomState).errors =
        afterBoomState.errors ++ ne ∧ ∀ er ∈ ne, er.occurredIn ≠ "doFoo") ∧
    (∃ nr, (runGroup [dependentProc "doFoo" "boom" "foo" (.str "bar"), writerProc "free" "y" (.num 2)]
          [.writes 0, .settle 0, .writes 1, .settle 1] afterBoomState).processorsRun =
        afterBoomState.processorsRun ++ nr ∧ ∀ pr ∈ nr, pr.name ≠ "doFoo") ∧
    (∀ p' ∈ [dependentProc "doFoo" "boom" "foo" (.str "bar"), writerProc "free" "y" (.num 2)],
      hasFailedPrereq afterBoomState.processorsRun p' = false →
      p'.runIf (afterBoomState.store.get afterBoomState.dataRef)
        (afterBoomState.store.get afterBoomState.ctxRef) = true →
      LogEvent.processInvoked p'.name ∈
        (runGroup [dependentProc "doFoo" "boom" "foo" (.str "bar"), writerProc "free" "y" (.num 2)]
          [.writes 0, .settle 0, .writes 1, .settle 1] afterBoomState).log) :=
  c7_failed_prerequisite_skips
    [dependentProc "doFoo" "boom" "foo" (.str "bar"), writerProc "free" "y" (.num 2)]
    [.writes 0, .settle 0, .writes 1, .settle 1] afterBoomState
    (dependentProc "doFoo" "boom" "foo" (.str "bar"))
    (List.mem_cons_self _ _) (by decide) (by decide)

/-! ## Store lemmas -/

theorem Store.length_setObj (st : Store) (r : Nat) (o : Obj) :
    (st.setObj r o).objs.length = st.objs.length := by
  simp [Store.setObj]

theorem Store.get_setObj_self (st : Store) (r : Nat) (o : Obj)
    (h : r < st.objs.length) : (st.setObj r o).get r = o := by
  show (st.objs.set r o).getD r [] = o
  have h2 : r < (st.objs.set r o).length := by simpa
  rw [List.getD_eq_getElem _ _ h2]
  exact List.getElem_set_self _

theorem Store.get_setObj_ne (st : Store) (r r' : Nat) (o : Obj) (h : r' ≠ r) :
    (st.setObj r o).get r' = st.get r' := by
  show (st.objs.set r o).getD r' [] = st.objs.getD r' []
  simp only [List.getD_eq_getElem?_getD, List.getElem?_set]
  rw [if_neg (fun he => h he.symm)]

theorem Store.get_alloc_old (st : Store) (o : Obj) (r : Nat) (h : r < st.objs.length) :
    (st.alloc o).1.get r = st.get r := by
  show (st.objs ++ [o]).getD r [] = st.objs.getD r []
  rw [List.getD_eq_getElem _ _ (by simp; omega), List.getD_eq_getElem _ _ h]
  exact List.getElem_append_left h

theorem Store.get_alloc_new (st : Store) (o : Obj) :
    (st.alloc o).1.get (st.alloc o).2 = o := by
  show (st.objs ++ [o]).getD st.objs.length [] = o
  rw [List.getD_eq_getElem _ _ (by simp)]
  simp

/-- `getField` after setting the same key. -/
theorem getField_setField_self (o : Obj) (k : String) (v : JSValue) :
    getField (setField o k v) k = some v := by
  unfold setField
  by_cases h : o.any (fun kv => kv.1 = k)
  · rw [if_pos h]
    induction o with
    | nil => simp at h
    | cons a t ih =>
        by_cases ha : a.1 = k
        · unfold getField
          simp [List.find?, ha]
        · have h' : t.any (fun kv => kv.1 = k) = true := by
            simp only [List.any_cons, Bool.or_eq_true, decide_eq_true_eq] at h
            rcases h with h | h
            · exact absurd h ha
            · simpa using h
          unfold getField at ih ⊢
          simpa [List.find?, ha] using ih h'
  · rw [if_neg h]
    induction o with
    | nil =>
        unfold getField
        simp [List.find?]
    | cons a t ih =>
        have ha : ¬(a.1 = k) := by
          intro hc
          exact h (by simp [List.any_cons, hc])
        have h' : ¬(t.any (fun kv => kv.1 = k) = true) := by
          intro hc
          exact h (by simp [List.any_cons, hc])
        unfold getField at ih ⊢
        simpa [List.find?, ha] using ih h'

/-- `getField` after deleting the key. -/
theorem getField_deleteField_self (o : Obj) (k : String) :
    getField (deleteField o k) k = none := by
  unfold getField deleteField
  rw [show (List.find? (fun kv => decide (kv.1 = k))
      (List.filter (fun kv => decide (kv.1 ≠ k)) o)) = none from ?_]
  · rfl
  · rw [List.find?_eq_none]
    intro kv hkv
    have := List.of_mem_filter hkv
    simpa using this

/-! ## Schedule-validity lemmas -/

theorem validSchedB_iff (k : Nat) (sched : List GEvent) :
    validSchedB k sched = true ↔ ValidSched k sched := by
  unfold validSchedB ValidSched
  rw [Bool.and_eq_true, List.isPerm_iff, List.all_eq_true]
  constructor
  · rintro ⟨hperm, hall⟩
    refine ⟨hperm, ?_⟩
    intro i hi
    have := hall i (List.mem_range.mpr hi)
    simpa using this
  · rintro ⟨hperm, hall⟩
    refine ⟨hperm, ?_⟩
    intro i hi
    simpa using hall i (List.mem_range.mp hi)

theorem mem_groupEvents_writes (k i : Nat) :
    GEvent.writes i ∈ groupEvents k ↔ i < k := by
  simp [groupEvents]

theorem mem_groupEvents_settle (k i : Nat) :
    GEvent.settle i ∈ groupEvents k ↔ i < k := by
  simp [groupEvents]

theorem groupEvents_nodup (k : Nat) : (groupEvents k).Nodup := by
  unfold groupEvents
  refine List.Nodup.append ?_ ?_ ?_
  · apply List.Nodup.map
    · intro a b h
      injection h
    · exact List.nodup_range k
  · apply List.Nodup.map
    · intro a b h
      injection h
    · exact List.nodup_range k
  · intro x hx hy
    obtain ⟨i, _, rfl⟩ := List.mem_map.mp hx
    obtain ⟨j, _, hj⟩ := List.mem_map.mp hy
    exact absurd hj (by simp)

/-- A valid schedule of a non-empty group ends with the settlement of one
of its members. -/
theorem validSched_last_settle (k : Nat) (sched : List GEvent) (hk : 0 < k)
    (hv : ValidSched k sched) :
    ∃ sched' j, j < k ∧ sched = sched' ++ [GEvent.settle j] := by
  obtain ⟨hperm, hord⟩ := hv
  have hnodup : sched.Nodup := hperm.nodup_iff.mpr (groupEvents_nodup k)
  have hlen : sched.length = (groupEvents k).length := hperm.length_eq
  have hne : sched ≠ [] := by
    intro h
    rw [h] at hlen
    simp [groupEvents] at hlen
    omega
  have hsplit := (List.dropLast_append_getLast hne).symm
  cases hlast : sched.getLast hne with
  | writes i =>
      exfalso
      have hmemw : GEvent.writes i ∈ sched := by
        rw [hsplit, hlast]
        simp
      have hik : i < k := (mem_groupEvents_writes k i).mp (hperm.mem_iff.mp hmemw)
      have hmems : GEvent.settle i ∈ sched :=
        hperm.mem_iff.mpr ((mem_groupEvents_settle k i).mpr hik)
      have hnodup2 : (sched.dropLast ++ [GEvent.writes i]).Nodup := by
        rw [hsplit, hlast] at hnodup
        exact hnodup
      have hnotdrop : GEvent.writes i ∉ sched.dropLast := by
        intro hmem
        exact (List.nodup_append.mp hnodup2).2.2 hmem (by simp)
      have hidxw : sched.indexOf (GEvent.writes i) = sched.dropLast.length := by
        conv_lhs => rw [hsplit, hlast]
        rw [List.indexOf_append_of_not_mem hnotdrop]
        simp
      have hidxs : sched.indexOf (GEvent.settle i) < sched.length :=
        List.indexOf_lt_length.mpr hmems
      have hlen2 : sched.length = sched.dropLast.length + 1 := by
        conv_lhs => rw [hsplit]
        simp
      have := hord i hik
      omega
  | settle j =>
      have hmem : GEvent.settle j ∈ sched := by
        rw [hsplit, hlast]
        simp
      refine ⟨sched.dropLast, j,
        (mem_groupEvents_settle k j).mp (hperm.mem_iff.mp hmem), ?_⟩
      conv_lhs => rw [hsplit, hlast]

/-! ## Cookie-shape invariant machinery -/

theorem applyWrite_length (st : Store) (d0 : Nat) (w : Write) :
    (applyWrite st d0 w).objs.length = st.objs.length := by
  cases w with
  | field k v => simp [applyWrite, Store.length_setObj]
  | cookieField k v =>
      show (match getField (st.get d0) "cookies" with
        | some (.objMap m) =>
            st.setObj d0 (setField (st.get d0) "cookies" (.objMap (setField m k v)))
        | _ => st).objs.length = st.objs.length
      split <;> simp [Store.length_setObj]

theorem execWrites_length (mr : MemberRun) (d0 c0 : Nat) (st : Store) :
    (execWrites mr d0 c0 st).objs.length = st.objs.length := by
  have hdata : ∀ (ws : List Write) (st : Store),
      (List.foldl (fun acc w => applyWrite acc d0 w) st ws).objs.length = st.objs.length := by
    intro ws
    induction ws with
    | nil => intro st; rfl
    | cons w t ih =>
        intro st
        show (List.foldl (fun acc w => applyWrite acc d0 w) (applyWrite st d0 w) t).objs.length = _
        rw [ih, applyWrite_length]
  have hctx : ∀ (ws : List (String × JSValue)) (st : Store),
      (List.foldl (fun acc kv => acc.setObj c0 (setField (acc.get c0) kv.1 kv.2)) st ws).objs.length
        = st.objs.length := by
    intro ws
    induction ws with
    | nil => intro st; rfl
    | cons w t ih =>
        intro st
        show (List.foldl (fun acc kv => acc.setObj c0 (setField (acc.get c0) kv.1 kv.2))
          ((st.setObj c0 (setField (st.get c0) w.1 w.2))) t).objs.length = _
        rw [ih, Store.length_setObj]
  unfold execWrites
  by_cases hc : !mr.cond
  · rw [if_pos hc]
  · rw [if_neg hc]
    cases hres : mr.res with
    | throws ex => rfl
    | ok o =>
        show (List.foldl (fun acc kv => acc.setObj c0 (setField (acc.get c0) kv.1 kv.2))
          (List.foldl (fun acc w => applyWrite acc d0 w) st o.dataWrites)
          o.ctxWrites).objs.length = _
        rw [hctx, hdata]

theorem ensureCookies_refs (n : String) (s : RunState) :
    (ensureCookies n s).dataRef = s.dataRef ∧ (ensureCookies n s).ctxRef = s.ctxRef ∧
      (ensureCookies n s).store.objs.length = s.store.objs.length := by
  unfold ensureCookies
  by_cases h : cookiesValid (s.store.get s.dataRef)
  · rw [if_pos h]
    exact ⟨rfl, rfl, rfl⟩
  · rw [if_neg h]
    exact ⟨rfl, rfl, by simp [Store.length_setObj]⟩

theorem ensureCookies_wf (n : String) (s : RunState) (h : RefsWF s) :
    RefsWF (ensureCookies n s) := by
  obtain ⟨h1, h2, h3⟩ := ensureCookies_refs n s
  obtain ⟨w1, w2, w3⟩ := h
  exact ⟨by rw [h1, h3]; exact w1, by rw [h2, h3]; exact w2, by rw [h1, h2]; exact w3⟩

theorem ensureCookies_valid (n : String) (s : RunState)
    (h : s.dataRef < s.store.objs.length) :
    cookiesValid ((ensureCookies n s).store.get (ensureCookies n s).dataRef) = true := by
  unfold ensureCookies
  by_cases hv : cookiesValid (s.store.get s.dataRef)
  · rw [if_pos hv]
    exact hv
  · rw [if_neg hv]
    show cookiesValid ((s.store.setObj s.dataRef _).get s.dataRef) = true
    rw [Store.get_setObj_self _ _ _ h]
    unfold cookiesValid
    rw [getField_setField_self]

theorem aggregateMerge_wf (s : RunState) (d0 c0 : Nat) (n : String)
    (res : Option PartialResult) (h : RefsWF s) : RefsWF (aggregateMerge s d0 c0 n res) := by
  cases res with
  | none => exact h
  | some r =>
      refine ⟨?_, ?_, ?_⟩ <;>
        · simp only [aggregateMerge, Store.alloc, List.length_append, List.length_cons,
            List.length_nil]
          omega

theorem aggregateResult_wf (s : RunState) (d0 c0 : Nat) (n : String)
    (res : Option PartialResult) (h : RefsWF s) : RefsWF (aggregateResult s d0 c0 n res) :=
  ensureCookies_wf n _ (aggregateMerge_wf s d0 c0 n res h)

theorem aggregateResult_valid (s : RunState) (d0 c0 : Nat) (n : String)
    (res : Option PartialResult) (h : RefsWF s) :
    cookiesValid ((aggregateResult s d0 c0 n res).store.get
      (aggregateResult s d0 c0 n res).dataRef) = true :=
  ensureCookies_valid n _ (aggregateMerge_wf s d0 c0 n res h).1

theorem handleProcessorError_wf (s : RunState) (n : String) (ex : Ex) (h : RefsWF s) :
    RefsWF (handleProcessorError s n ex) := by
  have hwf2 : RefsWF (ensureCookies n (handleRecord s n ex)) := ensureCookies_wf n _ h
  unfold handleProcessorError
  split
  · exact hwf2
  · exact hwf2

theorem handleProcessorError_valid (s : RunState) (n : String) (ex : Ex) (h : RefsWF s) :
    cookiesValid ((handleProcessorError s n ex).store.get
      (handleProcessorError s n ex).dataRef) = true := by
  have hv : cookiesValid ((ensureCookies n (handleRecord s n ex)).store.get
      (ensureCookies n (handleRecord s n ex)).dataRef) = true :=
    ensureCookies_valid n _ h.1
  unfold handleProcessorError
  split
  · exact hv
  · exact hv

theorem execSettle_wf (mr : MemberRun) (d0 c0 : Nat) (s : RunState) (h : RefsWF s) :
    RefsWF (execSettle mr d0 c0 s) := by
  unfold execSettle
  split
  · exact aggregateResult_wf _ _ _ _ _ h
  · split
    · exact aggregateResult_wf _ _ _ _ _ h
    · exact handleProcessorError_wf _ _ _ h

theorem execSettle_valid (mr : MemberRun) (d0 c0 : Nat) (s : RunState) (h : RefsWF s) :
    cookiesValid ((execSettle mr d0 c0 s).store.get (execSettle mr d0 c0 s).dataRef)
      = true := by
  unfold execSettle
  split
  · exact aggregateResult_valid _ _ _ _ _ h
  · split
    · exact aggregateResult_valid _ _ _ _ _ h
    · exact handleProcessorError_valid _ _ _ h

theorem execEvent_wf (mrs : List MemberRun) (d0 c0 : Nat) (s : RunState) (e : GEvent)
    (h : RefsWF s) : RefsWF (execEvent mrs d0 c0 s e) := by
  cases e with
  | writes i =>
      unfold execEvent
      cases hg : mrs[i]? with
      | none => simpa [List.get?_eq_getElem?, hg] using h
      | some mr =>
          simp only [List.get?_eq_getElem?, hg]
          obtain ⟨h1, h2, h3⟩ := h
          exact ⟨by rw [execWrites_length]; exact h1, by rw [execWrites_length]; exact h2, h3⟩
  | settle i =>
      unfold execEvent
      cases hg : mrs[i]? with
      | none => simpa [List.get?_eq_getElem?, hg] using h
      | some mr =>
          simp only [List.get?_eq_getElem?, hg]
          exact execSettle_wf mr d0 c0 s h

theorem foldl_execEvent_wf (sched : List GEvent) (mrs : List MemberRun) (d0 c0 : Nat)
    (s : RunState) (h : RefsWF s) :
    RefsWF (sched.foldl (fun acc e => execEvent mrs d0 c0 acc e) s) := by
  induction sched generalizing s with
  | nil => exact h
  | cons e t ih =>
      show RefsWF (t.foldl _ (execEvent mrs d0 c0 s e))
      exact ih _ (execEvent_wf mrs d0 c0 s e h)

/-- Running one step preserves reference well-formedness and, thanks to the
`ensureCookies` at the last settlement, re-establishes the cookie-shape
invariant on the canonical `data`. -/
theorem runGroup_preserves (ps : List Processor) (sched : List GEvent) (s : RunState)
    (hwf : RefsWF s) (hval : cookiesValid (s.store.get s.dataRef) = true)
    (hs : (toExecOf ps s.processorsRun).length = 0 ∨
      ValidSched (toExecOf ps s.processorsRun).length sched) :
    RefsWF (runGroup ps sched s) ∧
    cookiesValid ((runGroup ps sched s).store.get (runGroup ps sched s).dataRef) = true := by
  by_cases hemp : (toExecOf ps s.processorsRun).isEmpty
  · have hrg : runGroup ps sched s =
        { s with log := s.log ++ warningsOf ps s.processorsRun } := by
      simp only [runGroup]
      rw [if_pos hemp]
    rw [hrg]
    exact ⟨hwf, hval⟩
  · have hk : 0 < (toExecOf ps s.processorsRun).length := by
      cases hl : toExecOf ps s.processorsRun with
      | nil => rw [hl] at hemp; simp at hemp
      | cons a t => simp [hl]
    have hv : ValidSched (toExecOf ps s.processorsRun).length sched := by
      rcases hs with hs | hs
      · omega
      · exact hs
    obtain ⟨sched', j, hj, hsched⟩ := validSched_last_settle _ sched hk hv
    have hrg : runGroup ps sched s =
        (sched' ++ [GEvent.settle j]).foldl (fun acc e => execEvent
          (mrsOf (toExecOf ps s.processorsRun) (s.store.get s.dataRef) (s.store.get s.ctxRef))
          s.dataRef s.ctxRef acc e)
          { s with log := (s.log ++ warningsOf ps s.processorsRun ++
              (toExecOf ps s.processorsRun).map (fun p => LogEvent.runIfInvoked p.name) ++
              ((mrsOf (toExecOf ps s.processorsRun) (s.store.get s.dataRef)
                  (s.store.get s.ctxRef)).filter (fun mr => mr.cond)).map
                (fun mr => LogEvent.processInvoked mr.proc.name)) } := by
      simp only [runGroup]
      rw [if_neg hemp, hsched]
    rw [hrg, List.foldl_append]
    have hwfmid : RefsWF ((sched').foldl (fun acc e => execEvent
        (mrsOf (toExecOf ps s.processorsRun) (s.store.get s.dataRef) (s.store.get s.ctxRef))
        s.dataRef s.ctxRef acc e)
        { s with log := (s.log ++ warningsOf ps s.processorsRun ++
            (toExecOf ps s.processorsRun).map (fun p => LogEvent.runIfInvoked p.name) ++
            ((mrsOf (toExecOf ps s.processorsRun) (s.store.get s.dataRef)
                (s.store.get s.ctxRef)).filter (fun mr => mr.cond)).map
              (fun mr => LogEvent.processInvoked mr.proc.name)) }) :=
      foldl_execEvent_wf _ _ _ _ _ hwf
    have hjlt : j < (mrsOf (toExecOf ps s.processorsRun) (s.store.get s.dataRef)
        (s.store.get s.ctxRef)).length := by
      show j < (List.map _ _).length
      rw [List.length_map]
      exact hj
    have hget : (mrsOf (toExecOf ps s.processorsRun) (s.store.get s.dataRef)
        (s.store.get s.ctxRef))[j]?.isSome := by
      rw [List.getElem?_eq_getElem hjlt]
      rfl
    cases hg : (mrsOf (toExecOf ps s.processorsRun) (s.store.get s.dataRef)
        (s.store.get s.ctxRef))[j]? with
    | none => rw [hg] at hget; simp at hget
    | some mr =>
        have hee : ∀ s' : RunState, execEvent
            (mrsOf (toExecOf ps s.processorsRun) (s.store.get s.dataRef) (s.store.get s.ctxRef))
            s.dataRef s.ctxRef s' (GEvent.settle j) = execSettle mr s.dataRef s.ctxRef s' := by
          intro s'
          unfold execEvent
          simp only [List.get?_eq_getElem?, hg]
        rw [List.foldl_cons, List.foldl_nil, hee]
        exact ⟨execSettle_wf mr _ _ _ hwfmid, execSettle_valid mr _ _ _ hwfmid⟩

/-- The fresh run state is well formed with a valid empty cookies object. -/
theorem initState_wf (pn : String) (sc : Obj) :
    RefsWF (initState pn sc) ∧
    cookiesValid ((initState pn sc).store.get (initState pn sc).dataRef) = true := by
  refine ⟨⟨by simp [initState], by simp [initState], by simp [initState]⟩, ?_⟩
  show cookiesValid ((⟨[_, [("cookies", .objMap [])]]⟩ : Store).get 1) = true
  unfold Store.get cookiesValid getField
  simp [List.find?]

/-- A valid cookies shape is exactly "some plain object". -/
theorem cookiesValid_iff (d : Obj) :
    cookiesValid d = true ↔ ∃ m, getField d "cookies" = some (.objMap m) := by
  unfold cookiesValid
  cases h : getField d "cookies" with
  | none => simp
  | some v => cases v <;> simp

/-- The step loop preserves reference well-formedness and the cookie-shape
invariant at every step boundary, given valid completion orders. -/
theorem runSteps_preserves (pn : String) (sc : Obj) (co : Bool)
    (l : List (Step × List GEvent)) (s : RunState)
    (hwf : RefsWF s) (hval : cookiesValid (s.store.get s.dataRef) = true)
    (hsched : schedsValidB pn sc co l s = true) :
    RefsWF (runSteps pn sc co l s).2 ∧
    cookiesValid ((runSteps pn sc co l s).2.store.get (runSteps pn sc co l s).2.dataRef)
      = true := by
  induction l generalizing s with
  | nil => exact ⟨hwf, hval⟩
  | cons hd tl ih =>
      obtain ⟨st, σ⟩ := hd
      unfold runSteps
      unfold schedsValidB at hsched
      cases hc : checkErrors pn sc co s.errors with
      | some e =>
          exact ⟨hwf, hval⟩
      | none =>
          rw [hc] at hsched
          rw [Bool.and_eq_true] at hsched
          obtain ⟨h1, h2⟩ := hsched
          have hcond : (toExecOf (stepMembers st) s.processorsRun).length = 0 ∨
              ValidSched (toExecOf (stepMembers st) s.processorsRun).length (stepSched st σ) := by
            rw [Bool.or_eq_true] at h1
            rcases h1 with h | h
            · left
              show stepExecCount s st = 0
              simpa using h
            · right
              exact (validSchedB_iff _ _).mp h
          have hstep := runGroup_preserves (stepMembers st) (stepSched st σ) s hwf hval hcond
          exact ih _ hstep.1 hstep.2 h2

/-- **C8**: the `data.cookies` shape invariant.  (1) Whenever a processor
settles having left `data.cookies` as a non-mapping value, `ensureCookies`
resets the canonical `data.cookies` to a fresh empty mapping and logs a
diagnostic, so the next step starts with a mapping.  (2) A subsequent
processor's cookie write lands in whatever mapping is there — in
particular in the fresh one after a reset.  (3) End to end, for any run
with valid completion orders that resolves successfully, the resulting
`data.cookies` is either absent (removed because no cookies were set) or a
plain object mapping — a corrupted value never reaches the response
layer. -/
theorem c8_cookies_reset_and_never_corrupt :
    (∀ (n : String) (s : RunState), s.dataRef < s.store.objs.length →
      cookiesValid (s.store.get s.dataRef) = false →
      (ensureCookies n s).log = s.log ++ [LogEvent.cookieResetError n] ∧
      getField ((ensureCookies n s).store.get (ensureCookies n s).dataRef) "cookies"
        = some (.objMap [])) ∧
    (∀ (st : Store) (d0 : Nat) (m : List (String × JSValue)) (k : String) (v : JSValue),
      d0 < st.objs.length →
      getField (st.get d0) "cookies" = some (.objMap m) →
      getField ((applyWrite st d0 (Write.cookieField k v)).get d0) "cookies"
        = some (.objMap (setField m k v))) ∧
    (∀ (pn : String) (steps : List Step) (sc : Obj) (co : Bool)
        (scheds : List (List GEvent)),
      schedsValidB pn sc co (steps.zip (padScheds scheds steps.length)) (initState pn sc)
          = true →
      ∀ r s', startRun pn [] steps sc co scheds = (.ok r, s') →
        getField r.data "cookies" = none ∨
        ∃ m, getField r.data "cookies" = some (.objMap m)) := by
  refine ⟨?_, ?_, ?_⟩
  · intro n s hrange hbad
    unfold ensureCookies
    rw [if_neg (by rw [hbad]; simp)]
    refine ⟨rfl, ?_⟩
    show getField ((s.store.setObj s.dataRef _).get s.dataRef) "cookies" = _
    rw [Store.get_setObj_self _ _ _ hrange, getField_setField_self]
  · intro st d0 m k v hrange hcm
    simp only [applyWrite]
    rw [hcm]
    show getField ((st.setObj d0 _).get d0) "cookies" = _
    rw [Store.get_setObj_self _ _ _ hrange, getField_setField_self]
  · intro pn steps sc co scheds hsched r s' hrun
    unfold startRun at hrun
    rw [if_neg (by simp)] at hrun
    cases hrs : runSteps pn sc co (steps.zip (padScheds scheds steps.length))
        (initState pn sc) with
    | mk ro s1 =>
        rw [hrs] at hrun
        cases ro with
        | some e => exact absurd hrun (by simp)
        | none =>
            simp only at hrun
            obtain ⟨hiwf, hival⟩ := initState_wf pn sc
            have hpres := runSteps_preserves pn sc co _ _ hiwf hival hsched
            rw [hrs] at hpres
            obtain ⟨hwf1, hval1⟩ := hpres
            replace hwf1 : RefsWF s1 := hwf1
            replace hval1 : cookiesValid (s1.store.get s1.dataRef) = true := hval1
            obtain ⟨m, hm⟩ := (cookiesValid_iff _).mp hval1
            cases hc2 : checkErrors pn sc co (finalizeCookies s1).errors with
            | some e2 =>
                rw [hc2] at hrun
                exact absurd hrun (by simp)
            | none =>
                rw [hc2] at hrun
                injection hrun with h1 h2
                injection h1 with h1
                subst h1
                have hdata : (finalizeCookies s1).store.get (finalizeCookies s1).dataRef =
                    (if jsTruthy (.objMap m) && (jsKeys (.objMap m)).isEmpty
                     then deleteField (s1.store.get s1.dataRef) "cookies"
                     else s1.store.get s1.dataRef) := by
                  simp only [finalizeCookies]
                  rw [hm]
                  show (s1.store.setObj s1.dataRef _).get s1.dataRef = _
                  rw [Store.get_setObj_self _ _ _ hwf1.1]
                by_cases hme : (jsKeys (JSValue.objMap m)).isEmpty
                · left
                  show getField ((finalizeCookies s1).store.get (finalizeCookies s1).dataRef)
                    "cookies" = none
                  rw [hdata, if_pos (by simp [jsTruthy, hme])]
                  exact getField_deleteField_self _ _
                · right
                  refine ⟨m, ?_⟩
                  show getField ((finalizeCookies s1).store.get (finalizeCookies s1).dataRef)
                    "cookies" = _
                  rw [hdata, if_neg (by simp [hme])]
                  exact hm

/-- Witness for C8 at concrete inputs: the corrupted state is reset with a
diagnostic, a cookie write lands in the mapping, and the
corruptor-then-writer run ends with `data.cookies` a plain mapping. -/
theorem c8_cookies_witness :
    ((ensureCookies "corruptor" corruptedCookiesState).log =
        corruptedCookiesState.log ++ [LogEvent.cookieResetError "corruptor"] ∧
      getField ((ensureCookies "corruptor" corruptedCookiesState).store.get
          (ensureCookies "corruptor" corruptedCookiesState).dataRef) "cookies"
        = some (.objMap [])) ∧
    getField ((applyWrite ⟨[[("cookies", .objMap [])]]⟩ 0
          (Write.cookieField "foo" (.str "bar"))).get 0) "cookies"
      = some (.objMap (setField [] "foo" (.str "bar"))) ∧
    (getField c8Result.data "cookies" = none ∨
      ∃ m, getField c8Result.data "cookies" = some (.objMap m)) := by
  refine ⟨?_, ?_, ?_⟩
  · exact c8_cookies_reset_and_never_corrupt.1 "corruptor" corruptedCookiesState
      (by decide) (by rfl)
  · exact c8_cookies_reset_and_never_corrupt.2.1 ⟨[[("cookies", .objMap [])]]⟩ 0 [] "foo"
      (.str "bar") (by decide) (by rfl)
  · exact c8_cookies_reset_and_never_corrupt.2.2 "Cookies"
      [.single cookieCorruptorProc, .single cookieWriterProc] [] false []
      (by rfl) c8Result
      (startRun "Cookies" [] [.single cookieCorruptorProc, .single cookieWriterProc]
        [] false []).2 (by rfl)

/-- **C6**: with continue-on-error disabled, (1) once the accumulated error
list is non-empty the loop halts at the next step boundary with a
process-level error carrying the full ordered error list and the starting
context, leaving the remaining steps unexecuted and the state untouched;
(2) the identical check runs once more after the last step, so an error in
the very last step still rejects the run (with the post-loop cookie
cleanup applied); (3) every rejected run's error is exactly
`ProcessError(processName, startingContext, errors)` with a non-empty
list; and (4) a successful run reports no errors. -/
theorem c6_halt_on_errors :
    (∀ (pn : String) (sc : Obj) (l₁ l₂ : List (Step × List GEvent)) (st : Step)
        (σ : List GEvent) (s s1 : RunState),
      runSteps pn sc false l₁ s = (none, s1) → s1.errors ≠ [] →
      runSteps pn sc false (l₁ ++ (st, σ) :: l₂) s =
        (some (RunError.processError pn sc s1.errors), s1)) ∧
    (∀ (pn : String) (sc : Obj) (processors : List Step) (scheds : List (List GEvent))
        (sEnd : RunState),
      runSteps pn sc false (processors.zip (padScheds scheds processors.length))
          (initState pn sc) = (none, sEnd) →
      sEnd.errors ≠ [] →
      startRun pn [] processors sc false scheds =
        (.error (RunError.processError pn sc sEnd.errors), finalizeCookies sEnd)) ∧
    (∀ (pn : String) (processors : List Step) (sc : Obj) (scheds : List (List GEvent))
        (e : RunError) (s' : RunState),
      startRun pn [] processors sc false scheds = (.error e, s') →
      e = RunError.processError pn sc s'.errors ∧ s'.errors ≠ []) ∧
    (∀ (pn : String) (processors : List Step) (sc : Obj) (scheds : List (List GEvent))
        (r : StartOk) (s' : RunState),
      startRun pn [] processors sc false scheds = (.ok r, s') → r.errors = []) := by
  have hchk : ∀ (pn : String) (sc : Obj) (errs : List ErrInfo), errs ≠ [] →
      checkErrors pn sc false errs = some (.processError pn sc errs) := by
    intro pn sc errs hne
    simp [checkErrors, List.length_pos, hne]
  refine ⟨?_, ?_, ?_, ?_⟩
  · intro pn sc l₁ l₂ st σ s s1 h1 hne
    rw [runSteps_append, h1]
    show runSteps pn sc false ((st, σ) :: l₂) s1 = _
    unfold runSteps
    rw [hchk pn sc s1.errors hne]
  · intro pn sc processors scheds sEnd h hne
    unfold startRun
    rw [if_neg (by simp), h]
    show (match checkErrors pn sc false (finalizeCookies sEnd).errors with
          | some e => (Except.error e, finalizeCookies sEnd)
          | none =>
              (Except.ok (StartOk.mk
                  ((finalizeCookies sEnd).store.get (finalizeCookies sEnd).dataRef)
                  (finalizeCookies sEnd).errors
                  ((finalizeCookies sEnd).store.get (finalizeCookies sEnd).ctxRef)),
                finalizeCookies sEnd)) = _
    rw [show checkErrors pn sc false (finalizeCookies sEnd).errors
        = some (.processError pn sc sEnd.errors) from hchk pn sc sEnd.errors hne]
  · intro pn processors sc scheds e s' h
    have hs := startRun_error_shape pn processors sc false scheds e s' h
    exact ⟨hs.1, hs.2.1⟩
  · intro pn processors sc scheds r s' h
    unfold startRun at h
    rw [if_neg (by simp)] at h
    cases hrs : runSteps pn sc false (processors.zip (padScheds scheds processors.length))
        (initState pn sc) with
    | mk ro s1 =>
        rw [hrs] at h
        cases ro with
        | some e => exact absurd h (by simp)
        | none =>
            simp only at h
            cases hc : checkErrors pn sc false (finalizeCookies s1).errors with
            | some e2 =>
                rw [hc] at h
                exact absurd h (by simp)
            | none =>
                rw [hc] at h
                injection h with h1 h2
                injection h1 with h1
                subst h1
                show (finalizeCookies s1).errors = []
                unfold checkErrors at hc
                by_cases hb : ((finalizeCookies s1).errors.length > 0 && !false) = true
                · rw [if_pos hb] at hc
                  exact absurd hc (by simp)
                · rw [if_neg hb] at hc
                  simpa [List.length_pos] using hb

/-- Witness for C6 at concrete inputs: a pending error halts the loop
before the next step; a throw in the last step is caught by the final
check; that rejection carries the full error list; and the trivial run
succeeds with no errors. -/
theorem c6_halt_witness :
    (runSteps "Halt" [] false ([] ++ (Step.single (trivialProc "after"), []) :: [])
        erroredState
      = (some (RunError.processError "Halt" [] erroredState.errors), erroredState)) ∧
    (startRun "Halt" [] c6LastSteps [] false []
      = (.error (RunError.processError "Halt" [] c6End.errors), finalizeCookies c6End)) ∧
    (RunError.processError "Halt" []
          (startRun "Halt" [] c6LastSteps [] false []).2.errors
        = RunError.processError "Halt" []
            (startRun "Halt" [] c6LastSteps [] false []).2.errors ∧
      (startRun "Halt" [] c6LastSteps [] false []).2.errors ≠ []) ∧
    c6OkResult.errors = [] := by
  refine ⟨?_, ?_, ?_, ?_⟩
  · exact c6_halt_on_errors.1 "Halt" [] [] [] (Step.single (trivialProc "after")) []
      erroredState erroredState rfl (by simp [erroredState])
  · exact c6_halt_on_errors.2.1 "Halt" [] c6LastSteps [] c6End rfl
      (List.cons_ne_nil _ _)
  · exact c6_halt_on_errors.2.2.1 "Halt" c6LastSteps [] []
      (RunError.processError "Halt" []
        (startRun "Halt" [] c6LastSteps [] false []).2.errors)
      (startRun "Halt" [] c6LastSteps [] false []).2 rfl
  · exact c6_halt_on_errors.2.2.2 "Halt" [.single (trivialProc "fine")] [] []
      c6OkResult (startRun "Halt" [] [.single (trivialProc "fine")] [] false []).2 rfl

/-- `setField` leaves the key list unchanged when the key is present, and
appends the key otherwise: distinct keys stay distinct. -/
theorem setField_wf (o : Obj) (k : String) (v : JSValue) (h : WFObj o) :
    WFObj (setField o k v) := by
  unfold setField
  by_cases ha : o.any (fun kv => kv.1 = k) = true
  · rw [if_pos ha]
    show ((o.map fun kv => if kv.1 = k then (k, v) else kv).map fun kv => kv.1).Nodup
    have hkeys : ((o.map fun kv => if kv.1 = k then (k, v) else kv).map fun kv => kv.1)
        = o.map fun kv => kv.1 := by
      rw [List.map_map]
      apply List.map_congr_left
      intro kv _
      by_cases hk : kv.1 = k
      · simp [hk]
      · simp [hk]
    rw [hkeys]
    exact h
  · rw [if_neg ha]
    show ((o ++ [(k, v)]).map fun kv => kv.1).Nodup
    rw [List.map_append]
    rw [List.nodup_append]
    refine ⟨h, by simp, ?_⟩
    intro a hmem hmem2
    simp only [List.map_cons, List.map_nil, List.mem_singleton] at hmem2
    subst hmem2
    obtain ⟨kv, hkv, hkk⟩ := List.mem_map.mp hmem
    exact ha (List.any_eq_true.mpr ⟨kv, hkv, by simp [hkk]⟩)

/-- Spreading onto a duplicate-free object keeps it duplicate-free. -/
theorem spreadMerge_wf (b a : Obj) (h : WFObj a) : WFObj (spreadMerge a b) := by
  induction b generalizing a with
  | nil => exact h
  | cons kv t ih =>
      show WFObj (t.foldl (fun acc kv => setField acc kv.1 kv.2) (setField a kv.1 kv.2))
      exact ih _ (setField_wf a kv.1 kv.2 h)

/-- Writing a binding the object already holds changes nothing. -/
theorem setField_mem_self (o : Obj) (k : String) (v : JSValue) (h : WFObj o)
    (hm : (k, v) ∈ o) : setField o k v = o := by
  unfold setField
  rw [if_pos (List.any_eq_true.mpr ⟨(k, v), hm, by simp⟩)]
  have : ∀ kv ∈ o, (if kv.1 = k then ((k, v) : String × JSValue) else kv) = kv := by
    intro kv hkv
    by_cases hk : kv.1 = k
    · rw [if_pos hk]
      exact (List.inj_on_of_nodup_map h hm hkv (by simpa using hk.symm)).symm ▸ rfl
    · rw [if_neg hk]
  rw [List.map_congr_left this]
  simp

/-- Folding an object's own bindings back over it is the identity. -/
theorem foldl_setField_sub (l o : Obj) (h : WFObj o) (hsub : ∀ kv ∈ l, kv ∈ o) :
    l.foldl (fun acc kv => setField acc kv.1 kv.2) o = o := by
  induction l with
  | nil => rfl
  | cons kv t ih =>
      show t.foldl (fun acc kv => setField acc kv.1 kv.2) (setField o kv.1 kv.2) = o
      rw [setField_mem_self o kv.1 kv.2 h (hsub kv (by simp))]
      exact ih (fun kv hkv => hsub kv (by simp [hkv]))

/-- JS `{...o, ...o}` is `o` itself for a real (duplicate-free) object. -/
theorem spreadMerge_self (o : Obj) (h : WFObj o) : spreadMerge o o = o :=
  foldl_setField_sub o o h (fun _ hkv => hkv)

/-- One in-place `data` write through the reference equals the spec-side
write on the dereferenced object. -/
theorem applyWrite_get_self (st : Store) (d0 : Nat) (w : Write)
    (h : d0 < st.objs.length) :
    (applyWrite st d0 w).get d0 = applySimpleWrite (st.get d0) w := by
  cases w with
  | field k v =>
      show (st.setObj d0 (setField (st.get d0) k v)).get d0 = setField (st.get d0) k v
      exact Store.get_setObj_self _ _ _ h
  | cookieField k v =>
      show (match getField (st.get d0) "cookies" with
        | some (.objMap m) =>
            st.setObj d0 (setField (st.get d0) "cookies" (.objMap (setField m k v)))
        | _ => st).get d0 =
        (match getField (st.get d0) "cookies" with
          | some (.objMap m) => setField (st.get d0) "cookies" (.objMap (setField m k v))
          | _ => st.get d0)
      cases hg : getField (st.get d0) "cookies" with
      | none => rfl
      | some vv =>
          cases vv with
          | objMap m => exact Store.get_setObj_self _ _ _ h
          | str s => rfl
          | num n => rfl
          | boolV b => rfl
          | nullV => rfl
          | undef => rfl
          | arr => rfl
          | date => rfl

/-- An in-place `data` write leaves every other reference unchanged. -/
theorem applyWrite_get_ne (st : Store) (d0 r : Nat) (w : Write) (h : r ≠ d0) :
    (applyWrite st d0 w).get r = st.get r := by
  cases w with
  | field k v => exact Store.get_setObj_ne _ _ _ _ h
  | cookieField k v =>
      show (match getField (st.get d0) "cookies" with
        | some (.objMap m) =>
            st.setObj d0 (setField (st.get d0) "cookies" (.objMap (setField m k v)))
        | _ => st).get r = st.get r
      cases hg : getField (st.get d0) "cookies" with
      | none => rfl
      | some vv =>
          cases vv with
          | objMap m => exact Store.get_setObj_ne _ _ _ _ h
          | str s => rfl
          | num n => rfl
          | boolV b => rfl
          | nullV => rfl
          | undef => rfl
          | arr => rfl
          | date => rfl

/-- The folded `data` writes, length. -/
theorem foldl_applyWrite_length (ws : List Write) (d0 : Nat) (st : Store) :
    (ws.foldl (fun acc w => applyWrite acc d0 w) st).objs.length = st.objs.length := by
  induction ws generalizing st with
  | nil => rfl
  | cons w t ih =>
      show (t.foldl (fun acc w => applyWrite acc d0 w) (applyWrite st d0 w)).objs.length = _
      rw [ih, applyWrite_length]

/-- The folded `data` writes through the reference equal the spec-side fold
on the dereferenced object. -/
theorem foldl_applyWrite_get_self (ws : List Write) (d0 : Nat) (st : Store)
    (h : d0 < st.objs.length) :
    (ws.foldl (fun acc w => applyWrite acc d0 w) st).get d0 =
      ws.foldl applySimpleWrite (st.get d0) := by
  induction ws generalizing st with
  | nil => rfl
  | cons w t ih =>
      show (t.foldl (fun acc w => applyWrite acc d0 w) (applyWrite st d0 w)).get d0 = _
      rw [ih _ (by rw [applyWrite_length]; exact h), applyWrite_get_self _ _ _ h]
      rfl

/-- The folded `data` writes leave every other reference unchanged. -/
theorem foldl_applyWrite_get_ne (ws : List Write) (d0 r : Nat) (st : Store)
    (h : r ≠ d0) :
    (ws.foldl (fun acc w => applyWrite acc d0 w) st).get r = st.get r := by
  induction ws generalizing st with
  | nil => rfl
  | cons w t ih =>
      show (t.foldl (fun acc w => applyWrite acc d0 w) (applyWrite st d0 w)).get r = _
      rw [ih, applyWrite_get_ne _ _ _ _ h]

/-- The folded in-place `context` writes: length. -/
theorem foldl_ctxWrite_length (kvs : List (String × JSValue)) (c0 : Nat) (st : Store) :
    (kvs.foldl (fun acc kv => acc.setObj c0 (setField (acc.get c0) kv.1 kv.2)) st).objs.length
      = st.objs.length := by
  induction kvs generalizing st with
  | nil => rfl
  | cons kv t ih =>
      show (t.foldl (fun acc kv => acc.setObj c0 (setField (acc.get c0) kv.1 kv.2))
          (st.setObj c0 (setField (st.get c0) kv.1 kv.2))).objs.length = _
      rw [ih, Store.length_setObj]

/-- The folded in-place `context` writes through the reference equal the
spec-side overlay on the dereferenced object. -/
theorem foldl_ctxWrite_get_self (kvs : List (String × JSValue)) (c0 : Nat) (st : Store)
    (h : c0 < st.objs.length) :
    (kvs.foldl (fun acc kv => acc.setObj c0 (setField (acc.get c0) kv.1 kv.2)) st).get c0
      = kvs.foldl (fun acc kv => setField acc kv.1 kv.2) (st.get c0) := by
  induction kvs generalizing st with
  | nil => rfl
  | cons kv t ih =>
      show (t.foldl (fun acc kv => acc.setObj c0 (setField (acc.get c0) kv.1 kv.2))
          (st.setObj c0 (setField (st.get c0) kv.1 kv.2))).get c0 = _
      rw [ih _ (by rw [Store.length_setObj]; exact h),
        Store.get_setObj_self _ _ _ h]
      rfl

/-- The folded in-place `context` writes leave other references unchanged. -/
theorem foldl_ctxWrite_get_ne (kvs : List (String × JSValue)) (c0 r : Nat) (st : Store)
    (h : r ≠ c0) :
    (kvs.foldl (fun acc kv => acc.setObj c0 (setField (acc.get c0) kv.1 kv.2)) st).get r
      = st.get r := by
  induction kvs generalizing st with
  | nil => rfl
  | cons kv t ih =>
      show (t.foldl (fun acc kv => acc.setObj c0 (setField (acc.get c0) kv.1 kv.2))
          (st.setObj c0 (setField (st.get c0) kv.1 kv.2))).get r = _
      rw [ih, Store.get_setObj_ne _ _ _ _ h]

/-- Resolving a returned component through the heap is resolving it against
the dereferenced captures. -/
theorem resolveRet_sim (st : Store) (d0 c0 : Nat) (ro : Option RetSrc) :
    resolveRet st d0 c0 ro = resolveRetSimple (st.get d0) (st.get c0) ro := by
  cases ro with
  | none => rfl
  | some rs => cases rs <;> rfl

/-- `ensureCookies` through the heap is the spec-side cookie guard on
`data`, all else equal. -/
theorem ensureCookies_sim (n : String) (s : RunState) (hwf : RefsWF s) :
    (ensureCookies n s).store.get (ensureCookies n s).dataRef
      = specCookieGuard (s.store.get s.dataRef) ∧
    (ensureCookies n s).store.get (ensureCookies n s).ctxRef = s.store.get s.ctxRef := by
  unfold ensureCookies specCookieGuard
  by_cases hv : cookiesValid (s.store.get s.dataRef)
  · rw [if_pos hv, if_pos hv]
    exact ⟨rfl, rfl⟩
  · rw [if_neg hv, if_neg hv]
    constructor
    · show (s.store.setObj s.dataRef _).get s.dataRef = _
      exact Store.get_setObj_self _ _ _ hwf.1
    · show (s.store.setObj s.dataRef _).get s.ctxRef = _
      exact Store.get_setObj_ne _ _ _ _ (Ne.symm hwf.2.2)

/-- Reading the second of two freshly allocated objects. -/
theorem alloc2_get_new (st : Store) (x y : Obj) :
    ((st.alloc x).1.alloc y).1.get ((st.alloc x).1.alloc y).2 = y :=
  Store.get_alloc_new _ _

/-- Reading the first of two freshly allocated objects. -/
theorem alloc2_get_old (st : Store) (x y : Obj) :
    ((st.alloc x).1.alloc y).1.get (st.alloc x).2 = x := by
  rw [Store.get_alloc_old _ _ _ (by show st.objs.length < (st.objs ++ [x]).length; simp)]
  exact Store.get_alloc_new _ _

/-- The rebinding merge, read back through the fresh references: exactly the
spec-side shallow overlays of the returned parts onto the captured
accumulators (in a sequential run the captures are the current
references). -/
theorem aggregateMerge_sim (s : RunState) (n : String) (r : PartialResult)
    (hwf : RefsWF s) :
    (aggregateMerge s s.dataRef s.ctxRef n (some r)).store.get
        (aggregateMerge s s.dataRef s.ctxRef n (some r)).dataRef
      = spreadMerge (s.store.get s.dataRef)
          (resolveRetSimple (s.store.get s.dataRef) (s.store.get s.ctxRef) r.dataPart) ∧
    (aggregateMerge s s.dataRef s.ctxRef n (some r)).store.get
        (aggregateMerge s s.dataRef s.ctxRef n (some r)).ctxRef
      = spreadMerge (s.store.get s.ctxRef)
          (resolveRetSimple (s.store.get s.dataRef) (s.store.get s.ctxRef) r.ctxPart) := by
  simp only [aggregateMerge]
  constructor
  · rw [alloc2_get_new]
    rw [Store.get_alloc_old _ _ _ hwf.1]
    rw [resolveRet_sim]
    rw [Store.get_alloc_old _ _ _ hwf.1, Store.get_alloc_old _ _ _ hwf.2.1]
  · rw [alloc2_get_old, resolveRet_sim]

/-- `aggregateResult` through the heap equals the spec-side merge of a
fulfilled settlement (captures = current references), cookie guard
included. -/
theorem aggregateResult_sim (s : RunState) (n : String) (res : Option PartialResult)
    (hwf : RefsWF s) :
    (aggregateResult s s.dataRef s.ctxRef n res).store.get
        (aggregateResult s s.dataRef s.ctxRef n res).dataRef
      = specCookieGuard (match res with
          | none => s.store.get s.dataRef
          | some r => spreadMerge (s.store.get s.dataRef)
              (resolveRetSimple (s.store.get s.dataRef) (s.store.get s.ctxRef) r.dataPart)) ∧
    (aggregateResult s s.dataRef s.ctxRef n res).store.get
        (aggregateResult s s.dataRef s.ctxRef n res).ctxRef
      = (match res with
          | none => s.store.get s.ctxRef
          | some r => spreadMerge (s.store.get s.ctxRef)
              (resolveRetSimple (s.store.get s.dataRef) (s.store.get s.ctxRef) r.ctxPart)) := by
  cases res with
  | none =>
      obtain ⟨h1, h2⟩ := ensureCookies_sim n (aggregateMerge s s.dataRef s.ctxRef n none)
        (aggregateMerge_wf s _ _ n none hwf)
      exact ⟨h1, h2⟩
  | some r =>
      obtain ⟨hm1, hm2⟩ := aggregateMerge_sim s n r hwf
      obtain ⟨h1, h2⟩ := ensureCookies_sim n (aggregateMerge s s.dataRef s.ctxRef n (some r))
        (aggregateMerge_wf s _ _ n (some r) hwf)
      refine ⟨?_, ?_⟩
      · show (ensureCookies n (aggregateMerge s s.dataRef s.ctxRef n (some r))).store.get
          (ensureCookies n (aggregateMerge s s.dataRef s.ctxRef n (some r))).dataRef = _
        rw [h1, hm1]
      · show (ensureCookies n (aggregateMerge s s.dataRef s.ctxRef n (some r))).store.get
          (ensureCookies n (aggregateMerge s s.dataRef s.ctxRef n (some r))).ctxRef = _
        rw [h2, hm2]

/-- The spec-side sequential step keeps both accumulators duplicate-free. -/
theorem specSeqStep_wf (q : SimpleState) (p : Processor) (hd : WFObj q.data)
    (hc : WFObj q.ctx) : WFObj (specSeqStep q p).data ∧ WFObj (specSeqStep q p).ctx := by
  have hguard : ∀ o : Obj, WFObj o → WFObj (specCookieGuard o) := by
    intro o ho
    unfold specCookieGuard
    by_cases hv : cookiesValid o
    · rw [if_pos hv]; exact ho
    · rw [if_neg hv]; exact setField_wf o _ _ ho
  have happly : ∀ (ws : List Write) (o : Obj), WFObj o →
      WFObj (ws.foldl applySimpleWrite o) := by
    intro ws
    induction ws with
    | nil => exact fun o ho => ho
    | cons w t ih =>
        intro o ho
        show WFObj (t.foldl applySimpleWrite (applySimpleWrite o w))
        apply ih
        cases w with
        | field k v => exact setField_wf o k v ho
        | cookieField k v =>
            show WFObj (match getField o "cookies" with
              | some (.objMap m) => setField o "cookies" (.objMap (setField m k v))
              | _ => o)
            cases hg : getField o "cookies" with
            | none => exact ho
            | some vv =>
                cases vv with
                | objMap m => exact setField_wf o _ _ ho
                | str s => exact ho
                | num n => exact ho
                | boolV b => exact ho
                | nullV => exact ho
                | undef => exact ho
                | arr => exact ho
                | date => exact ho
  unfold specSeqStep
  by_cases hpre : hasFailedPrereq q.processorsRun p = true
  · rw [if_pos hpre]
    exact ⟨hd, hc⟩
  · rw [if_neg hpre]
    by_cases hri : p.runIf q.data q.ctx = true
    · rw [if_pos hri]
      cases hres : p.process q.data q.ctx with
      | ok o =>
          have hd1 : WFObj (o.dataWrites.foldl applySimpleWrite q.data) :=
            happly _ _ hd
          have hc1 : WFObj (o.ctxWrites.foldl (fun acc kv => setField acc kv.1 kv.2) q.ctx) := by
            show WFObj (spreadMerge q.ctx o.ctxWrites)
            exact spreadMerge_wf _ _ hc
          cases hor : o.result with
          | none =>
              simp only [hor]
              exact ⟨hguard _ hd1, hc1⟩
          | some r =>
              simp only [hor]
              exact ⟨hguard _ (spreadMerge_wf _ _ hd1), spreadMerge_wf _ _ hc1⟩
      | throws ex => exact ⟨hguard _ hd, hc⟩
    · rw [if_neg hri]
      exact ⟨hguard _ hd, hc⟩

/-- `handleProcessorError` through the heap: cookie guard on `data`,
`context` untouched, one error recorded, one failed run recorded. -/
theorem handleProcessorError_sim (s : RunState) (nm : String) (ex : Ex) (hwf : RefsWF s) :
    (handleProcessorError s nm ex).store.get (handleProcessorError s nm ex).dataRef
      = specCookieGuard (s.store.get s.dataRef) ∧
    (handleProcessorError s nm ex).store.get (handleProcessorError s nm ex).ctxRef
      = s.store.get s.ctxRef := by
  obtain ⟨h1, h2⟩ := ensureCookies_sim nm (handleRecord s nm ex)
    ⟨hwf.1, hwf.2.1, hwf.2.2⟩
  unfold handleProcessorError
  by_cases hdl : !(ex.doNotLog || ex.isEpiError)
  · rw [if_pos hdl]
    exact ⟨h1, h2⟩
  · rw [if_neg hdl]
    exact ⟨h1, h2⟩

/-- A fulfilled settlement through the heap simulates the spec-side
merge. -/
theorem settle_ok_sim (s3 : RunState) (q1 : SimpleState) (nm : String)
    (res : Option PartialResult) (h : SimRel s3 q1) :
    SimRel (aggregateResult s3 s3.dataRef s3.ctxRef nm res)
      ⟨specCookieGuard (match res with
          | none => q1.data
          | some r => spreadMerge q1.data (resolveRetSimple q1.data q1.ctx r.dataPart))
      , (match res with
          | none => q1.ctx
          | some r => spreadMerge q1.ctx (resolveRetSimple q1.data q1.ctx r.ctxPart))
      , q1.errors, q1.processorsRun ++ [⟨nm, true⟩]⟩ := by
  obtain ⟨hd, hc, he, hp, hwf⟩ := h
  obtain ⟨h1, h2⟩ := aggregateResult_sim s3 nm res hwf
  obtain ⟨nl, hl, hnl, he2, hp2⟩ := aggregateResult_extends s3 s3.dataRef s3.ctxRef nm res
  refine ⟨?_, ?_, ?_, ?_, aggregateResult_wf s3 _ _ nm res hwf⟩
  · rw [h1, hd, hc]
  · rw [h2, hd, hc]
  · rw [he2, he]
  · rw [hp2, hp]

/-- A rejected settlement through the heap simulates the spec-side error
capture. -/
theorem settle_throws_sim (s3 : RunState) (q1 : SimpleState) (nm : String) (ex : Ex)
    (h : SimRel s3 q1) :
    SimRel (handleProcessorError s3 nm ex)
      ⟨specCookieGuard q1.data, q1.ctx
      , q1.errors ++ [⟨nm, ex.message, { ex with doNotLog := true }⟩]
      , q1.processorsRun ++ [⟨nm, false⟩]⟩ := by
  obtain ⟨hd, hc, he, hp, hwf⟩ := h
  obtain ⟨h1, h2⟩ := handleProcessorError_sim s3 nm ex hwf
  obtain ⟨nl, hl, hnl, he2, hp2⟩ := handleProcessorError_extends s3 nm ex
  exact ⟨by rw [h1, hd], by rw [h2, hc], by rw [he2, he], by rw [hp2, hp],
    handleProcessorError_wf s3 nm ex hwf⟩

set_option maxHeartbeats 1600000 in
/-- One plain (single-member) step through the heap, under its only
completion order, simulates the spec-side sequential fold step. -/
theorem runGroup_single_sim (p : Processor) (s : RunState) (q : SimpleState)
    (hR : SimRel s q) (hwfd : WFObj q.data) (hwfc : WFObj q.ctx) :
    SimRel (runGroup [p] seqSched s) (specSeqStep q p) := by
  obtain ⟨hd, hc, he, hp, hwf⟩ := hR
  by_cases hfail : hasFailedPrereq s.processorsRun p = true
  · have hgr : runGroup [p] seqSched s =
        { s with log := s.log ++ warningsOf [p] s.processorsRun } := by
      simp only [runGroup]
      have htoe : toExecOf [p] s.processorsRun = [] := by
        simp [toExecOf, List.filter_cons, hfail]
      rw [htoe]
      rfl
    have hspec : specSeqStep q p = q := by
      unfold specSeqStep
      rw [if_pos (show hasFailedPrereq q.processorsRun p = true from by rw [← hp]; exact hfail)]
    rw [hgr, hspec]
    exact ⟨hd, hc, he, hp, hwf⟩
  · have hfail2 : hasFailedPrereq s.processorsRun p = false := by
      cases hx : hasFailedPrereq s.processorsRun p
      · rfl
      · exact absurd hx hfail
    have hfailq : ¬(hasFailedPrereq q.processorsRun p = true) := by
      rw [← hp, hfail2]
      simp
    have htoe : toExecOf [p] s.processorsRun = [p] := by
      simp [toExecOf, List.filter_cons, hfail2]
    simp only [runGroup]
    rw [htoe]
    simp only [List.isEmpty, mrsOf, List.map, seqSched, List.foldl, execEvent, List.get?]
    rw [hd, hc]
    rw [if_neg (by simp)]
    generalize s.log ++ warningsOf [p] s.processorsRun ++ [LogEvent.runIfInvoked p.name] ++
        List.map (fun mr => LogEvent.processInvoked mr.proc.name)
          (List.filter (fun mr => mr.cond)
            [(⟨p, p.runIf q.data q.ctx, p.process q.data q.ctx⟩ : MemberRun)]) = lg
    by_cases hri : p.runIf q.data q.ctx = true
    · cases hres : p.process q.data q.ctx with
      | ok o =>
          rw [hri]
          simp only [execWrites, execSettle, Bool.not_true, Bool.false_eq_true, if_false]
          have hspec : specSeqStep q p =
              ⟨specCookieGuard (match o.result with
                  | none => o.dataWrites.foldl applySimpleWrite q.data
                  | some r => spreadMerge (o.dataWrites.foldl applySimpleWrite q.data)
                      (resolveRetSimple (o.dataWrites.foldl applySimpleWrite q.data)
                        (o.ctxWrites.foldl (fun acc kv => setField acc kv.1 kv.2) q.ctx)
                        r.dataPart))
              , (match o.result with
                  | none => o.ctxWrites.foldl (fun acc kv => setField acc kv.1 kv.2) q.ctx
                  | some r => spreadMerge
                      (o.ctxWrites.foldl (fun acc kv => setField acc kv.1 kv.2) q.ctx)
                      (resolveRetSimple (o.dataWrites.foldl applySimpleWrite q.data)
                        (o.ctxWrites.foldl (fun acc kv => setField acc kv.1 kv.2) q.ctx)
                        r.ctxPart))
              , q.errors, q.processorsRun ++ [⟨p.name, true⟩]⟩ := by
            unfold specSeqStep
            rw [if_neg hfailq, if_pos hri, hres]
          rw [hspec]
          have hd1 : (List.foldl
                (fun acc kv => acc.setObj s.ctxRef (setField (acc.get s.ctxRef) kv.1 kv.2))
                (List.foldl (fun acc w => applyWrite acc s.dataRef w) s.store o.dataWrites)
                o.ctxWrites).get s.dataRef
              = List.foldl applySimpleWrite q.data o.dataWrites := by
            rw [foldl_ctxWrite_get_ne _ _ _ _ hwf.2.2,
              foldl_applyWrite_get_self _ _ _ hwf.1, hd]
          have hc1 : (List.foldl
                (fun acc kv => acc.setObj s.ctxRef (setField (acc.get s.ctxRef) kv.1 kv.2))
                (List.foldl (fun acc w => applyWrite acc s.dataRef w) s.store o.dataWrites)
                o.ctxWrites).get s.ctxRef
              = List.foldl (fun acc kv => setField acc kv.1 kv.2) q.ctx o.ctxWrites := by
            rw [foldl_ctxWrite_get_self _ _ _
                (by rw [foldl_applyWrite_length]; exact hwf.2.1),
              foldl_applyWrite_get_ne _ _ _ _ (Ne.symm hwf.2.2), hc]
          have hlen : (List.foldl
                (fun acc kv => acc.setObj s.ctxRef (setField (acc.get s.ctxRef) kv.1 kv.2))
                (List.foldl (fun acc w => applyWrite acc s.dataRef w) s.store o.dataWrites)
                o.ctxWrites).objs.length = s.store.objs.length := by
            rw [foldl_ctxWrite_length, foldl_applyWrite_length]
          exact settle_ok_sim
            { store := List.foldl
                (fun acc kv => acc.setObj s.ctxRef (setField (acc.get s.ctxRef) kv.1 kv.2))
                (List.foldl (fun acc w => applyWrite acc s.dataRef w) s.store o.dataWrites)
                o.ctxWrites
            , dataRef := s.dataRef, ctxRef := s.ctxRef, errors := s.errors
            , processorsRun := s.processorsRun, log := lg }
            ⟨List.foldl applySimpleWrite q.data o.dataWrites,
              List.foldl (fun acc kv => setField acc kv.1 kv.2) q.ctx o.ctxWrites,
              q.errors, q.processorsRun⟩ p.name o.result
            ⟨hd1, hc1, he, hp, ⟨by rw [hlen] at *; exact hwf.1,
              by rw [hlen] at *; exact hwf.2.1, hwf.2.2⟩⟩
      | throws ex =>
          rw [hri]
          simp only [execWrites, execSettle, Bool.not_true, Bool.false_eq_true, if_false]
          have hspec : specSeqStep q p =
              ⟨specCookieGuard q.data, q.ctx
              , q.errors ++ [⟨p.name, ex.message, { ex with doNotLog := true }⟩]
              , q.processorsRun ++ [⟨p.name, false⟩]⟩ := by
            unfold specSeqStep
            rw [if_neg hfailq, if_pos hri, hres]
          rw [hspec]
          exact settle_throws_sim
            { store := s.store, dataRef := s.dataRef, ctxRef := s.ctxRef
            , errors := s.errors, processorsRun := s.processorsRun, log := lg }
            q p.name ex ⟨hd, hc, he, hp, hwf⟩
    · have hri2 : p.runIf q.data q.ctx = false := by
        cases hx : p.runIf q.data q.ctx
        · rfl
        · exact absurd hx hri
      rw [hri2]
      simp only [execWrites, execSettle, Bool.not_false, if_true, ite_true]
      have hspec : specSeqStep q p =
          ⟨specCookieGuard q.data, q.ctx, q.errors
          , q.processorsRun ++ [⟨p.name, true⟩]⟩ := by
        unfold specSeqStep
        rw [if_neg hfailq, if_neg (by rw [hri2]; simp)]
      rw [hspec]
      have hstep : SimRel (aggregateResult
          { store := s.store, dataRef := s.dataRef, ctxRef := s.ctxRef, errors := s.errors
          , processorsRun := s.processorsRun, log := lg }
          s.dataRef s.ctxRef p.name (some ⟨some .capturedData, some .capturedCtx⟩))
          ⟨specCookieGuard (spreadMerge q.data q.data), spreadMerge q.ctx q.ctx
          , q.errors, q.processorsRun ++ [⟨p.name, true⟩]⟩ :=
        settle_ok_sim
          { store := s.store, dataRef := s.dataRef, ctxRef := s.ctxRef, errors := s.errors
          , processorsRun := s.processorsRun, log := lg }
          q p.name (some ⟨some .capturedData, some .capturedCtx⟩)
          ⟨hd, hc, he, hp, hwf⟩
      rw [spreadMerge_self q.data hwfd, spreadMerge_self q.ctx hwfc] at hstep
      exact hstep

/-- The step loop over a pipeline of plain steps simulates the spec-side
halting fold — for every per-step schedule assignment. -/
theorem runSteps_singles_sim (pn : String) (sc : Obj) (co : Bool) (ps : List Processor)
    (σs : List (List GEvent)) (s : RunState) (q : SimpleState)
    (hlen : σs.length = ps.length)
    (hR : SimRel s q) (hwfd : WFObj q.data) (hwfc : WFObj q.ctx) :
    (runSteps pn sc co ((ps.map Step.single).zip σs) s).1 = (specFoldGo pn sc co ps q).1 ∧
    SimRel (runSteps pn sc co ((ps.map Step.single).zip σs) s).2
      (specFoldGo pn sc co ps q).2 := by
  induction ps generalizing σs s q with
  | nil => exact ⟨rfl, hR⟩
  | cons p rest ih =>
      cases σs with
      | nil => exact absurd hlen (by simp)
      | cons σ σrest =>
          obtain ⟨hd, hcx, he, hp, hwf⟩ := hR
          simp only [List.map_cons, List.zip_cons_cons]
          unfold runSteps specFoldGo
          rw [he]
          cases hcc : checkErrors pn sc co q.errors with
          | some e => exact ⟨rfl, hd, hcx, he, hp, hwf⟩
          | none =>
              have hstep := runGroup_single_sim p s q ⟨hd, hcx, he, hp, hwf⟩ hwfd hwfc
              have hwf2 := specSeqStep_wf q p hwfd hwfc
              exact ih σrest _ _ (by simpa using hlen) hstep hwf2.1 hwf2.2

/-- The post-loop cookie cleanup, read back through the references. -/
theorem finalizeCookies_sim (s1 : RunState) (hwf : RefsWF s1) :
    (finalizeCookies s1).store.get (finalizeCookies s1).dataRef =
      (match getField (s1.store.get s1.dataRef) "cookies" with
        | some v => if jsTruthy v && (jsKeys v).isEmpty
            then deleteField (s1.store.get s1.dataRef) "cookies" else s1.store.get s1.dataRef
        | none => s1.store.get s1.dataRef) ∧
    (finalizeCookies s1).store.get (finalizeCookies s1).ctxRef = s1.store.get s1.ctxRef := by
  simp only [finalizeCookies]
  constructor
  · exact Store.get_setObj_self _ _ _ hwf.1
  · exact Store.get_setObj_ne _ _ _ _ (Ne.symm hwf.2.2)

/-- A sequential run through the heap engine returns exactly the spec-side
left-to-right fold. -/
theorem startRun_seq_eq_specFold (pn : String) (sc : Obj) (co : Bool)
    (ps : List Processor) (scheds : List (List GEvent)) (hsc : WFObj sc) :
    (startRun pn [] (ps.map Step.single) sc co scheds).1 =
      (specFold pn sc co ps).map (fun t => StartOk.mk t.1 t.2.1 t.2.2) := by
  have hR0 : SimRel (initState pn sc)
      ⟨[("cookies", .objMap [])]
      , setField (spreadMerge sc [("processName", .str pn)]) "errors" .arr
      , [], []⟩ :=
    ⟨rfl, rfl, rfl, rfl, (initState_wf pn sc).1⟩
  have hwfd0 : WFObj ([("cookies", JSValue.objMap [])] : Obj) := by simp [WFObj]
  have hwfc0 : WFObj (setField (spreadMerge sc [("processName", .str pn)]) "errors" .arr) :=
    setField_wf _ _ _ (spreadMerge_wf _ _ hsc)
  have hlen : (padScheds scheds (ps.map Step.single).length).length = ps.length := by
    simp [padScheds]
  have hsim := runSteps_singles_sim pn sc co ps
    (padScheds scheds (ps.map Step.single).length) (initState pn sc) _ hlen hR0 hwfd0 hwfc0
  unfold startRun
  simp only [specFold]
  rw [if_neg (by simp)]
  cases hrs : runSteps pn sc co
      ((ps.map Step.single).zip (padScheds scheds (ps.map Step.single).length))
      (initState pn sc) with
  | mk ro s1 =>
      rw [hrs] at hsim
      cases hsg : specFoldGo pn sc co ps
          ⟨[("cookies", .objMap [])]
          , setField (spreadMerge sc [("processName", .str pn)]) "errors" .arr
          , [], []⟩ with
      | mk ro2 q1 =>
          rw [hsg] at hsim
          obtain ⟨hfst, hsim2⟩ := hsim
          simp only at hfst
          subst hfst
          cases ro with
          | some e => rfl
          | none =>
              obtain ⟨hd1, hc1, he1, hp1, hwf1⟩ := hsim2
              replace hd1 : s1.store.get s1.dataRef = q1.data := hd1
              replace hc1 : s1.store.get s1.ctxRef = q1.ctx := hc1
              replace he1 : s1.errors = q1.errors := he1
              replace hwf1 : RefsWF s1 := hwf1
              obtain ⟨hfd, hfc⟩ := finalizeCookies_sim s1 hwf1
              have hfe : (finalizeCookies s1).errors = s1.errors := rfl
              simp only [hfe, he1]
              cases hce : checkErrors pn sc co q1.errors with
              | some e => rfl
              | none =>
                  simp only [Except.map]
                  rw [show ((finalizeCookies s1).store.get (finalizeCookies s1).dataRef) =
                      (match getField q1.data "cookies" with
                        | some v => if jsTruthy v && (jsKeys v).isEmpty
                            then deleteField q1.data "cookies" else q1.data
                        | none => q1.data) from by rw [hfd, hd1],
                    show ((finalizeCookies s1).store.get (finalizeCookies s1).ctxRef) = q1.ctx
                      from by rw [hfc, hc1]]

/-- **C2**: for every pipeline of plain (non-parallel) steps and every
schedule assignment — the only freedom asynchronous delays have in this
model — `start` returns exactly the spec-side strict left-to-right fold of
the processors' merges; hence the result is independent of the assignment;
and in any pipeline the step loop runs a later segment only from the state
left by the full settlement of the earlier segment (halting without
touching it if the earlier segment erred). -/
theorem c2_sequential_fold_strict_order :
    (∀ (pn : String) (sc : Obj) (co : Bool) (ps : List Processor)
        (scheds : List (List GEvent)), WFObj sc →
      (startRun pn [] (ps.map Step.single) sc co scheds).1 =
        (specFold pn sc co ps).map (fun t => StartOk.mk t.1 t.2.1 t.2.2)) ∧
    (∀ (pn : String) (sc : Obj) (co : Bool) (ps : List Processor)
        (scheds₁ scheds₂ : List (List GEvent)), WFObj sc →
      (startRun pn [] (ps.map Step.single) sc co scheds₁).1 =
        (startRun pn [] (ps.map Step.single) sc co scheds₂).1) ∧
    (∀ (pn : String) (sc : Obj) (co : Bool) (l₁ l₂ : List (Step × List GEvent))
        (s : RunState),
      runSteps pn sc co (l₁ ++ l₂) s =
        match runSteps pn sc co l₁ s with
        | (some e, s1) => (some e, s1)
        | (none, s1) => runSteps pn sc co l₂ s1) := by
  refine ⟨?_, ?_, ?_⟩
  · exact fun pn sc co ps scheds h => startRun_seq_eq_specFold pn sc co ps scheds h
  · intro pn sc co ps scheds₁ scheds₂ h
    rw [startRun_seq_eq_specFold pn sc co ps scheds₁ h,
      startRun_seq_eq_specFold pn sc co ps scheds₂ h]
  · exact fun pn sc co l₁ l₂ s => runSteps_append pn sc co l₁ l₂ s

/-- Witness for C2 at concrete inputs: a two-processor sequential pipeline
equals its spec-side fold, under two different schedule assignments; and
the loop decomposes over an append. -/
theorem c2_sequential_witness :
    ((startRun "Seq" [] ([writerProc "w" "x" (.num 2), trivialProc "t"].map Step.single)
        [("init", .num 1)] false []).1 =
      (specFold "Seq" [("init", .num 1)] false
        [writerProc "w" "x" (.num 2), trivialProc "t"]).map
          (fun t => StartOk.mk t.1 t.2.1 t.2.2)) ∧
    ((startRun "Seq" [] ([writerProc "w" "x" (.num 2), trivialProc "t"].map Step.single)
        [("init", .num 1)] false []).1 =
      (startRun "Seq" [] ([writerProc "w" "x" (.num 2), trivialProc "t"].map Step.single)
        [("init", .num 1)] false [[.settle 0, .writes 0]]).1) ∧
    (runSteps "Seq" [] false
        ([(.single (trivialProc "a"), seqSched)] ++ [(.single (trivialProc "b"), seqSched)])
        (initState "Seq" []) =
      match runSteps "Seq" [] false [(.single (trivialProc "a"), seqSched)]
          (initState "Seq" []) with
      | (some e, s1) => (some e, s1)
      | (none, s1) => runSteps "Seq" [] false [(.single (trivialProc "b"), seqSched)] s1) := by
  refine ⟨?_, ?_, ?_⟩
  · exact c2_sequential_fold_strict_order.1 "Seq" [("init", .num 1)] false
      [writerProc "w" "x" (.num 2), trivialProc "t"] [] (by simp [WFObj])
  · exact c2_sequential_fold_strict_order.2.1 "Seq" [("init", .num 1)] false
      [writerProc "w" "x" (.num 2), trivialProc "t"] [] [[.settle 0, .writes 0]]
      (by simp [WFObj])
  · exact c2_sequential_fold_strict_order.2.2 "Seq" [] false
      [(.single (trivialProc "a"), seqSched)] [(.single (trivialProc "b"), seqSched)]
      (initState "Seq" [])

/-- Witness for C10 at concrete inputs: a non-object `responseInfo` throws;
a supplied 400 is kept, is positive, and marks the error `doNotLog`. -/
theorem c10_processorError_witness :
    (isRealObj (JSValue.num 3) = false ∧
      mkProcessorError "x" (.num 3) = .error ResponseInfoNotObject) ∧
    (mkProcessorError "boom" (.objMap [("statusCode", .num 400)]) = .ok c10Ex ∧
      0 < c10Ex.responseInfo.statusCode ∧
      c10Ex.responseInfo.statusCode = 400 ∧
      (c10Ex.doNotLog = true ↔ c10Ex.responseInfo.statusCode < 500)) := by
  constructor
  · exact ⟨rfl, (c10_processorError_constructor "x" (.num 3)).1.mpr rfl⟩
  · have h := (c10_processorError_constructor "boom"
      (.objMap [("statusCode", .num 400)])).2 c10Ex rfl
    exact ⟨rfl, h.1, h.2.1 400 rfl (by norm_num), h.2.2.2⟩

/-- Witness for C9 (amended) at concrete inputs: composing `getBar` then a
processor requiring it validates cleanly; deregistering `getBar` removes it
but records no configuration error; deregistration never touches
`invalidConfigs`; registration validates the new processor. -/
theorem c9_amended_witness :
    (compose "P9" [.single (trivialProc "getBar"),
        .single (dependentProc "doFoo" "getBar" "foo" (.num 1))] none).invalidConfigs
      = [] ∧
    (deregister (compose "P9" [.single (trivialProc "getBar"),
        .single (dependentProc "doFoo" "getBar" "foo" (.num 1))] none)
      "getBar").invalidConfigs = [] ∧
    (deregister (compose "P9" [.single (trivialProc "getBar"),
        .single (dependentProc "doFoo" "getBar" "foo" (.num 1))] none)
      "getBar").processors = [.single (dependentProc "doFoo" "getBar" "foo" (.num 1))] ∧
    (deregister (compose "P9" [.single (trivialProc "getBar")] none)
        "nobody").invalidConfigs
      = (compose "P9" [.single (trivialProc "getBar")] none).invalidConfigs ∧
    (register (compose "P9" [.single (trivialProc "getBar")] none)
        (dependentProc "doFoo" "getBar" "foo" (.num 1))).invalidConfigs
      = (compose "P9" [.single (trivialProc "getBar")] none).invalidConfigs ++
        validatePrerequisites (dependentProc "doFoo" "getBar" "foo" (.num 1))
          (flattenSteps (compose "P9" [.single (trivialProc "getBar")] none).processors) := by
  have h := c9_amended_validation_times (trivialProc "getBar")
    (dependentProc "doFoo" "getBar" "foo" (.num 1)) "P9" none rfl rfl (by decide)
  exact ⟨h.1, h.2.1, h.2.2.1, h.2.2.2.1 _ "nobody",
    h.2.2.2.2.1 _ (dependentProc "doFoo" "getBar" "foo" (.num 1))⟩

/-- Witness for C1's universally quantified conjunct at the concrete
resolved value: the slow member's in-place writes are indeed absent from
it. -/
theorem c1_race_witness :
    getField (StartOk.mk [("modifyAndReturnData", .str "modifyAndReturnData")] []
        [("starter", .boolV true), ("processName", .str "Race"), ("errors", .arr),
         ("modifyAndReturnContext", .str "modifyAndReturnContext")]).data
      "slowDataNoReturn" = none ∧
    getField (StartOk.mk [("modifyAndReturnData", .str "modifyAndReturnData")] []
        [("starter", .boolV true), ("processName", .str "Race"), ("errors", .arr),
         ("modifyAndReturnContext", .str "modifyAndReturnContext")]).context
      "slowContextNoReturn" = none :=
  c1_race_inPlace_write_lost.2.1
    (StartOk.mk [("modifyAndReturnData", .str "modifyAndReturnData")] []
      [("starter", .boolV true), ("processName", .str "Race"), ("errors", .arr),
       ("modifyAndReturnContext", .str "modifyAndReturnContext")]) rfl
